import Mathlib

/-!
# Verification of the notion-to-markdown reconciliation core

This file gives a shallow embedding of the reconciliation and tracking
engine of the notion-to-markdown repository (src/utils/bundle.ts,
src/helpers.ts, src/file.ts, src/pageMap.ts, src/imageTracker.ts,
src/utils/retry.ts and the delete step of src/index.ts), and proves
properties of that embedding.

Conventions of the embedding:
* JavaScript strings are Lean `String`s and are mostly manipulated through
  their character lists.
* Library routines from the JavaScript runtime (`path.join`,
  `String.prototype.startsWith`, the `slugify` package, regular-expression
  matching) are reimplemented here for the relative-path / mostly-ASCII
  inputs this code base feeds them; each definition notes the construct it
  models.
* Impure ingredients with no bearing on control flow are passed as
  explicit parameters: the md5 digest function, URL parsing, the current
  time, and the timestamp normalization performed by
  `new Date(x).toISOString()`.
-/

namespace NotionToMd

/-! ## JavaScript string primitives -/

/-- Whitespace as matched by the JavaScript regex class `\s`, restricted to
the ASCII whitespace characters (the titles and paths this code handles do
not contain the exotic Unicode spaces `\s` additionally covers). -/
def isJsSpace (c : Char) : Bool :=
  c == ' ' || c == '\t' || c == '\n' || c == '\r' || c == '\x0b' || c == '\x0c'

/-- `String.prototype.startsWith`. -/
def jsStartsWith (s pre : String) : Bool :=
  pre.data.isPrefixOf s.data

/-- Core of `String.prototype.includes`: substring containment on
character lists. -/
def listContainsSub (pat : List Char) : List Char → Bool
  | [] => pat.isEmpty
  | c :: t => pat.isPrefixOf (c :: t) || listContainsSub pat t

/-- `String.prototype.includes`. -/
def strContains (s pat : String) : Bool :=
  listContainsSub pat.data s.data

/-- ASCII lowercasing of one character (agrees with `Char.toLower` on
every character; spelled out per letter to keep proofs by cases). -/
def asciiLowerChar (c : Char) : Char :=
  match c with
  | 'A' => 'a' | 'B' => 'b' | 'C' => 'c' | 'D' => 'd' | 'E' => 'e' | 'F' => 'f'
  | 'G' => 'g' | 'H' => 'h' | 'I' => 'i' | 'J' => 'j' | 'K' => 'k' | 'L' => 'l'
  | 'M' => 'm' | 'N' => 'n' | 'O' => 'o' | 'P' => 'p' | 'Q' => 'q' | 'R' => 'r'
  | 'S' => 's' | 'T' => 't' | 'U' => 'u' | 'V' => 'v' | 'W' => 'w' | 'X' => 'x'
  | 'Y' => 'y' | 'Z' => 'z'
  | other => other

/-- `String.prototype.toLowerCase`, ASCII range (the inputs considered
contain no letters outside ASCII). -/
def jsToLowerCase (s : String) : String :=
  String.mk (s.data.map asciiLowerChar)

/-- `String.prototype.trim` (strips JS whitespace from both ends). -/
def jsTrim (s : String) : String :=
  String.mk (((s.data.dropWhile isJsSpace).reverse.dropWhile isJsSpace).reverse)

/-- `s.replace(dash, "")` for the global dash regex: removes every dash. -/
def stripDashes (s : String) : String :=
  String.mk (s.data.filter (fun c => !(c == '-')))

/-- `s.substring(0, n)`. -/
def strTake (s : String) (n : Nat) : String :=
  String.mk (s.data.take n)

/-- The character of a decimal digit value. -/
def natDigitChar (d : Nat) : Char :=
  if d == 0 then '0' else if d == 1 then '1' else if d == 2 then '2'
  else if d == 3 then '3' else if d == 4 then '4' else if d == 5 then '5'
  else if d == 6 then '6' else if d == 7 then '7' else if d == 8 then '8'
  else '9'

/-- The decimal digits of `n`, least significant first. -/
def natDecimalRev (n : Nat) : List Char :=
  if h : n < 10 then [natDigitChar n]
  else natDigitChar (n % 10) :: natDecimalRev (n / 10)
decreasing_by exact Nat.div_lt_self (by omega) (by omega)

/-- Template-literal interpolation of a nonnegative number: its decimal
rendering. -/
def jsNatToString (n : Nat) : String :=
  String.mk (natDecimalRev n).reverse

/-- Helper for `jsCollapseWs`: each maximal run of JS whitespace becomes
one copy of `repl`; the boolean records whether the previous character was
whitespace. -/
def jsCollapseWsGo (repl : List Char) : List Char → Bool → List Char
  | [], _ => []
  | c :: rest, inRun =>
    if isJsSpace c then
      (if inRun then [] else repl) ++ jsCollapseWsGo repl rest true
    else
      c :: jsCollapseWsGo repl rest false

/-- `s.replace(ws, repl)` for the global regex of one-or-more whitespace
characters: collapses each whitespace run to `repl`. -/
def jsCollapseWs (repl : String) (s : String) : String :=
  String.mk (jsCollapseWsGo repl.data s.data false)

/-- `s.replace(ws, "")` for the global one-or-more-whitespace regex:
removes all whitespace. -/
def jsRemoveWs (s : String) : String :=
  String.mk (s.data.filter (fun c => !isJsSpace c))

/-! ## Node `path` primitives (POSIX, relative paths)

The code base only ever joins relative paths built from `content`,
configured target folders, slugs and filenames, so the models below cover
relative POSIX paths; the absolute-path special cases of Node's `path`
module cannot arise. -/

/-- Splits a character list at every occurrence of `sep`. -/
def splitOnCharList (sep : Char) : List Char → List (List Char)
  | [] => [[]]
  | c :: rest =>
    if c == sep then [] :: splitOnCharList sep rest
    else
      match splitOnCharList sep rest with
      | [] => [[c]]
      | g :: gs => (c :: g) :: gs

/-- Path normalization as performed by `path.join`: empty and `.` segments
are dropped and `..` pops the previous real segment. `acc` holds the
already-normalized segments in reverse. -/
def pathNormStack (acc : List (List Char)) : List (List Char) → List (List Char)
  | [] => acc.reverse
  | s :: rest =>
    if s.isEmpty || s == ['.'] then pathNormStack acc rest
    else if s == ['.', '.'] then
      match acc with
      | [] => pathNormStack [['.', '.']] rest
      | top :: tl =>
        if top == ['.', '.'] then pathNormStack (['.', '.'] :: top :: tl) rest
        else pathNormStack tl rest
    else pathNormStack (s :: acc) rest

/-- `path.join(a, b)` for relative POSIX paths: concatenates the segment
lists, normalizes, and renders `.` for an empty result. -/
def pathJoin (a b : String) : String :=
  let segs := pathNormStack [] (splitOnCharList '/' a.data ++ splitOnCharList '/' b.data)
  let j := List.intercalate ['/'] segs
  if j.isEmpty then "." else String.mk j

/-- `path.basename` for relative POSIX paths: the last nonempty
`/`-separated segment (empty string when there is none). -/
def pathBasename (p : String) : String :=
  let segs := (splitOnCharList '/' p.data).filter (fun s => !s.isEmpty)
  match segs.getLast? with
  | some s => String.mk s
  | none => ""

/-- `path.dirname` for relative POSIX paths: everything before the last
separator, `.` when there is no separator. -/
def pathDirname (p : String) : String :=
  let cs := (p.data.reverse.dropWhile (fun c => c == '/')).reverse
  if cs.all (fun c => !(c == '/')) then "."
  else
    let pre := (cs.reverse.dropWhile (fun c => !(c == '/'))).reverse
    let pre2 := (pre.reverse.dropWhile (fun c => c == '/')).reverse
    if pre2.isEmpty then "/" else String.mk pre2

/-! ## The `slugify` package

Model of `slugify(title, (lower: true, strict: true, replacement: "-"))`
from the npm package slugify 1.6.6, as called by `createSlug`
(src/utils/bundle.ts) and `getFileName` (src/helpers.ts).  The package
first maps each character through a transliteration table, turns
occurrences of the replacement character into spaces, and removes
characters its keep-class rejects; with `strict` it then removes everything
that is not ASCII-alphanumeric or whitespace, trims, collapses whitespace
runs to the replacement, and lowercases. -/

/-- The ASCII rows of the package's transliteration table (the full table
additionally transliterates non-ASCII letters and symbols, which do not
occur in the inputs considered here). -/
def slugifyCharMap (c : Char) : Option String :=
  if c == '$' then some "dollar"
  else if c == '%' then some "percent"
  else if c == '&' then some "and"
  else if c == '<' then some "less"
  else if c == '>' then some "greater"
  else if c == '|' then some "or"
  else none

/-- The character keep-class of slugify's removal regex: word characters,
whitespace, and a fixed set of punctuation. -/
def slugifyKeep (c : Char) : Bool :=
  c.isAlphanum || c == '_' || isJsSpace c ||
  c == '$' || c == '*' || c == '+' || c == '~' || c == '.' ||
  c == '(' || c == ')' || c.val == 39 || c.val == 34 ||
  c == '!' || c == '-' || c == ':' || c == '@'

/-- Per-character step of slugify's reduce: transliterate, turn the
replacement character `-` into a space, drop characters outside the
keep-class. -/
def slugifyMapChar (c : Char) : List Char :=
  let a := match slugifyCharMap c with
    | some s => s
    | none => String.mk [c]
  let a := if a == "-" then " " else a
  a.data.filter slugifyKeep

/-- `slugify(s, (lower: true, strict: true, replacement: "-"))`. -/
def slugify (s : String) : String :=
  let mapped := (s.data.map slugifyMapChar).flatten
  let strict := mapped.filter (fun c => c.isAlphanum || isJsSpace c)
  let trimmed := jsTrim (String.mk strict)
  let collapsed := jsCollapseWs "-" trimmed
  jsToLowerCase collapsed

/-! ## src/utils/bundle.ts -/

/-- `createSlug` (src/utils/bundle.ts): slugify with the fixed options. -/
def createSlug (title : String) : String :=
  slugify title

/-- One entry of `HugoBundleConfig.contentTypes` (src/types/hugo.ts). -/
structure ContentTypeConfig where
  path : String
  useBundle : Bool
  indexFile : String
deriving DecidableEq, Repr

/-- One entry of `HugoBundleConfig.specialPages` (src/types/hugo.ts);
`useBundle`/`indexFile` are optional overrides. -/
structure SpecialPageConfig where
  type : String
  path : String
  useBundle : Option Bool
  indexFile : Option String
deriving DecidableEq, Repr

/-- `HugoBundleConfig` (src/types/hugo.ts).  The two record-typed fields
become association lists preserving the object-literal insertion order that
`Object.entries` iterates. -/
structure HugoBundleConfig where
  useBundle : Bool
  indexFile : String
  specialPages : List (String × SpecialPageConfig)
  contentTypes : List (String × ContentTypeConfig)
deriving DecidableEq, Repr

/-- `DEFAULT_HUGO_BUNDLE_CONFIG` (src/types/hugo.ts). -/
def DEFAULT_HUGO_BUNDLE_CONFIG : HugoBundleConfig where
  useBundle := true
  indexFile := "index.md"
  specialPages :=
    [ ("about", ⟨"page", "about", none, none⟩)
    , ("aboutme", ⟨"page", "about", none, none⟩)
    , ("disclaimer", ⟨"page", "disclaimer", none, none⟩)
    , ("privacy", ⟨"page", "privacy", none, none⟩)
    , ("contact", ⟨"page", "contact", none, none⟩) ]
  contentTypes :=
    [ ("posts", ⟨"content/posts", true, "index.md"⟩)
    , ("page", ⟨"content", true, "index.md"⟩) ]

/-- Record lookup `record[key]`, yielding `undefined` as `none`. -/
def lookupAssoc {α : Type} (l : List (String × α)) (k : String) : Option α :=
  (l.find? (fun kv => kv.1 == k)).map (fun kv => kv.2)

/-- `BundlePathOptions` (src/utils/bundle.ts); the optional `bundleConfig`
parameter is made explicit (callers that omit it pass
`DEFAULT_HUGO_BUNDLE_CONFIG`). -/
structure BundlePathOptions where
  title : String
  pageId : String
  contentType : String
  targetFolder : String
  bundleConfig : HugoBundleConfig
deriving DecidableEq, Repr

/-- `BundlePath` (src/utils/bundle.ts). -/
structure BundlePath where
  bundleDirPath : String
  indexFilePath : String
  slug : String
  indexFileName : String
  isBundle : Bool
deriving DecidableEq, Repr

/-- `getBundlePath` (src/utils/bundle.ts).  `none` models the TypeError the
JavaScript throws when it reads `useBundle`/`indexFile` off an `undefined`
content-type entry (possible only for configurations whose `contentTypes`
table is missing a referenced key; the default configuration never hits
it, see `getBundlePath_default_isSome`).  Note the page id is never used
in the computed paths. -/
def getBundlePath (options : BundlePathOptions) : Option BundlePath :=
  let slug := createSlug options.title
  let lowerTitle := jsRemoveWs (jsToLowerCase options.title)
  let specialPage := options.bundleConfig.specialPages.find?
    (fun kv => strContains lowerTitle kv.1)
  let baseDir := pathJoin "content" options.targetFolder
  let mkPath : Bool → String → BundlePath := fun useBundle indexFileName =>
    if useBundle then
      let bundleDirPath := pathJoin baseDir slug
      ⟨bundleDirPath, pathJoin bundleDirPath indexFileName, slug, indexFileName, true⟩
    else
      ⟨baseDir, pathJoin baseDir (slug ++ ".md"), slug, slug ++ ".md", false⟩
  -- contentTypes[contentType] || contentTypes.page
  let ctc? : Option ContentTypeConfig :=
    match lookupAssoc options.bundleConfig.contentTypes options.contentType with
    | some c => some c
    | none => lookupAssoc options.bundleConfig.contentTypes "page"
  match specialPage with
  | none =>
    match ctc? with
    | some ctc => some (mkPath ctc.useBundle ctc.indexFile)
    | none => none
  | some kv =>
    let config := kv.2
    let ctc2? := lookupAssoc options.bundleConfig.contentTypes config.type
    let useBundle? : Option Bool :=
      match config.useBundle with
      | some b => some b
      | none => ctc2?.map (fun c => c.useBundle)
    let indexFile? : Option String :=
      match config.indexFile with
      | some f => if f == "" then ctc2?.map (fun c => c.indexFile) else some f
      | none => ctc2?.map (fun c => c.indexFile)
    match useBundle?, indexFile? with
    | some ub, some idx => some (mkPath ub idx)
    | _, _ => none

/-- `getBundlePath` as invoked throughout src/pageMap.ts and src/index.ts:
without a `bundleConfig` argument, so with `DEFAULT_HUGO_BUNDLE_CONFIG`.
The fallback branch is unreachable (`getBundlePath_default_isSome`). -/
def getBundlePathDefault (title pageId contentType targetFolder : String) : BundlePath :=
  match getBundlePath ⟨title, pageId, contentType, targetFolder, DEFAULT_HUGO_BUNDLE_CONFIG⟩ with
  | some bp => bp
  | none => ⟨"", "", "", "", true⟩

/-! ## src/helpers.ts -/

/-- `getFileName` (src/helpers.ts): slug of the title, a dash, the page id
with dashes removed, and the `.md` extension. -/
def getFileName (title page_id : String) : String :=
  let slug := slugify title
  slug ++ "-" ++ stripDashes page_id ++ ".md"

/-! ## src/file.ts -/

/-- `[a-f0-9]` with the `i` flag: a hex digit in either case. -/
def isLaxHexDigit (c : Char) : Bool :=
  (decide (97 ≤ c.toNat) && decide (c.toNat ≤ 102)) ||
  (decide (65 ≤ c.toNat) && decide (c.toNat ≤ 70)) ||
  c.isDigit

/-- `[a-f0-9]` without the `i` flag: a lowercase hex digit. -/
def isLowerHexDigit (c : Char) : Bool :=
  (decide (97 ≤ c.toNat) && decide (c.toNat ≤ 102)) || c.isDigit

/-- The 8-4-4-4-12 dashed rendering of a 32-character id, as built by
`extractNotionIdFromFilename` from its regex capture via `slice`. -/
def formatDashedId (id32 : List Char) : String :=
  String.mk (id32.take 8) ++ "-" ++ String.mk ((id32.drop 8).take 4) ++ "-" ++
  String.mk ((id32.drop 12).take 4) ++ "-" ++ String.mk ((id32.drop 16).take 4) ++ "-" ++
  String.mk (id32.drop 20)

/-- `extractNotionIdFromFilename` (src/file.ts).  The source matches the
end-anchored, case-insensitive regex requiring a `-` or `_`, exactly 32 hex
digits, then `.md` at the end of the filename; any match of that pattern
captures precisely the 32 characters preceding the final `.md`, which is
what this definition checks. -/
def extractNotionIdFromFilename (filename : String) : Option String :=
  let rev := filename.data.reverse
  if rev.take 3 == ['d', 'm', '.'] then
    let hexRev := (rev.drop 3).take 32
    let sep := (rev.drop 35).head?
    if hexRev.length == 32 && hexRev.all isLaxHexDigit &&
       (sep == some '-' || sep == some '_') then
      some (formatDashedId hexRev.reverse)
    else none
  else none

/-! ## Notion page model and `getPageShouldBeProcessed` (src/helpers.ts)

Only the parts of a `PageObjectResponse` that `getPageShouldBeProcessed`
inspects are modeled: the parent type tag and the property map.  A
property is a `select` (with its possibly-null option name), a `status`
(likewise), or anything else; JavaScript treats an empty-string name as
falsy, which the code below checks explicitly. -/

/-- The payloads of the property types `getPageShouldBeProcessed`
distinguishes; every other property type has no effect on it. -/
inductive PropValue where
  | select (name : Option String)
  | status (name : Option String)
  | otherProp
deriving DecidableEq, Repr

/-- The slice of a Notion page visible to `getPageShouldBeProcessed`:
`parent.type` and the ordered property entries `Object.entries` yields. -/
structure NotionPage where
  parentType : String
  properties : List (String × PropValue)
deriving DecidableEq, Repr

/-- The property loop of `getPageShouldBeProcessed`, with accumulators
`hf` (`hasCorrectFormat`) and `hp` (`hasCorrectPlatform`).  `none` encodes
the early `return false` taken on a Format that is not "Social" or a
Platform that is not "Blog"; `some (hf, hp, sp)` is the state after the
loop ends or `break`s with `shouldProcess = sp`. -/
def shouldProcessLoop : List (String × PropValue) → Bool → Bool →
    Option (Bool × Bool × Bool)
  | [], hf, hp => some (hf, hp, true)
  | (key, v) :: rest, hf, hp =>
    match v with
    | .select sv =>
      if key == "Format" || key == "format" then
        match sv with
        | some n =>
          if n == "" then shouldProcessLoop rest hf hp
          else if n == "Social" then shouldProcessLoop rest true hp
          else none
        | none => shouldProcessLoop rest hf hp
      else if key == "Platform" || key == "platform" then
        match sv with
        | some n =>
          if n == "" then shouldProcessLoop rest hf hp
          else if n == "Blog" then shouldProcessLoop rest hf true
          else none
        | none => shouldProcessLoop rest hf hp
      else shouldProcessLoop rest hf hp
    | .status sv =>
      match sv with
      | some n =>
        if n == "" then shouldProcessLoop rest hf hp
        else
          let status := jsToLowerCase n
          if status == "draft" || status == "in progress" then some (hf, hp, false)
          else shouldProcessLoop rest hf hp
      | none => shouldProcessLoop rest hf hp
    | .otherProp => shouldProcessLoop rest hf hp

/-- `getPageShouldBeProcessed` (src/helpers.ts): child pages are always
processed; otherwise the page must carry Format "Social" and Platform
"Blog" and must not have a draft / in-progress status. -/
def getPageShouldBeProcessed (page : NotionPage) : Bool :=
  if page.parentType == "page_id" then true
  else
    match shouldProcessLoop page.properties false false with
    | none => false
    | some (hf, hp, sp) =>
      if !hf then false
      else if !hp then false
      else sp

/-- A property entry that is invisible to `getPageShouldBeProcessed`'s
classification: not a Format/Platform select carrying a (truthy) option
name, and not a status carrying a (truthy) name.  A page whose
classification properties are entirely absent has only such entries. -/
def propNoClassificationEffect (kv : String × PropValue) : Bool :=
  match kv.2 with
  | .select sv =>
    match sv with
    | none => true
    | some n =>
      n == "" ||
      !(kv.1 == "Format" || kv.1 == "format" || kv.1 == "Platform" || kv.1 == "platform")
  | .status sv =>
    match sv with
    | none => true
    | some n => n == ""
  | .otherProp => true

/-! ## src/pageMap.ts -/

/-- The `mountType` discriminator of `PageMapItem`. -/
inductive MountType where
  | database
  | page
deriving DecidableEq, Repr

/-- `PageMapItem` (src/pageMap.ts).  The opaque `page` payload (the raw
API object handed to the renderer) is not inspected by the reconciler and
is omitted. -/
structure PageMapItem where
  id : String
  title : String
  outputName : String
  lastEdited : String
  targetFolder : String
  mountType : MountType
  mountSource : String
  shouldProcess : Bool
deriving DecidableEq, Repr

/-- `ContentFileMapItem` (src/pageMap.ts). -/
structure ContentFileMapItem where
  id : String
  filepath : String
  outputName : String
  lastEdited : String
  targetFolder : String
  isBundle : Bool
  expiryTime : Option String
  updateTime : Option String
deriving DecidableEq, Repr

/-- A `renamedPages` entry: the old and new bundle directory names. -/
structure RenameInfo where
  oldName : String
  newName : String
deriving DecidableEq, Repr

/-- `PageActionMap` (src/pageMap.ts); the `renamedPages` JavaScript `Map`
becomes an association list with `Map.set` replace-or-append semantics. -/
structure PageActionMap where
  toCreate : List PageMapItem
  toUpdate : List PageMapItem
  toDelete : List ContentFileMapItem
  unchanged : List PageMapItem
  renamedPages : List (String × RenameInfo)
deriving DecidableEq, Repr

/-- `Map.prototype.set`: replace the binding of `k` if present, else
append it. -/
def assocSet {α : Type} (l : List (String × α)) (k : String) (v : α) :
    List (String × α) :=
  match l with
  | [] => [(k, v)]
  | (k', v') :: rest =>
    if k' == k then (k, v) :: rest else (k', v') :: assocSet rest k v

/-- The content type `compareAndCreateActionMap` passes to
`getBundlePath`: "posts" for database mounts, "page" for page mounts. -/
def contentTypeFor (p : PageMapItem) : String :=
  match p.mountType with
  | .database => "posts"
  | .page => "page"

/-- The bundle-directory comparison of the `matchingFile.isBundle` branch
of `compareAndCreateActionMap`: the current directory name against the
directory name freshly derived from the title; `some` carries the rename
recorded into `renamedPages` on a mismatch. -/
def bundleRenameCheck (p : PageMapItem) (f : ContentFileMapItem) : Option RenameInfo :=
  let currentDir := pathBasename (pathDirname f.filepath)
  let bp := getBundlePathDefault p.title p.id (contentTypeFor p) p.targetFolder
  let newDirName := pathBasename bp.bundleDirPath
  if currentDir == newDirName then none else some ⟨currentDir, newDirName⟩

/-- The loop state of `compareAndCreateActionMap`'s first pass. -/
structure CompareState where
  toCreate : List PageMapItem
  toUpdate : List PageMapItem
  unchanged : List PageMapItem
  existingIds : List String
  renamedPages : List (String × RenameInfo)
deriving DecidableEq, Repr

/-- The `hasStructuralChange` flag of `compareAndCreateActionMap`: in the
bundle branch, whether the directory-name comparison found a mismatch; in
the flat branch, whether the freshly derived path is a bundle (a
flat-to-bundle conversion). -/
def pageHasStructuralChange (p : PageMapItem) (f : ContentFileMapItem) : Bool :=
  if f.isBundle then (bundleRenameCheck p f).isSome
  else (getBundlePathDefault p.title p.id (contentTypeFor p) p.targetFolder).isBundle

/-- The timestamp comparison of `compareAndCreateActionMap`.  `normDate`
models `x => new Date(x).toISOString()`, the normalization applied to both
sides (a runtime date parser, passed as a parameter); an empty (falsy)
file timestamp is kept as the empty string. -/
def timestampsDiffer (normDate : String → String) (p : PageMapItem)
    (f : ContentFileMapItem) : Bool :=
  let sourceLastEdited := normDate p.lastEdited
  let fileLastEdited := if f.lastEdited == "" then "" else normDate f.lastEdited
  !(fileLastEdited == sourceLastEdited)

/-- One iteration of `compareAndCreateActionMap`'s first pass over
`sourcePages`: skip unprocessed pages, record the id, then classify
against the matching content file, registering the bundle rename (if any)
in `renamedPages`. -/
def processSourcePage (normDate : String → String)
    (contentFiles : List ContentFileMapItem) (st : CompareState)
    (p : PageMapItem) : CompareState :=
  if !p.shouldProcess then st
  else
    let st := { st with existingIds := st.existingIds ++ [p.id] }
    match contentFiles.find? (fun f => f.id == p.id) with
    | none => { st with toCreate := st.toCreate ++ [p] }
    | some f =>
      let st :=
        if f.isBundle then
          match bundleRenameCheck p f with
          | some r => { st with renamedPages := assocSet st.renamedPages p.id r }
          | none => st
        else st
      if timestampsDiffer normDate p f || pageHasStructuralChange p f then
        { st with toUpdate := st.toUpdate ++ [p] }
      else
        { st with unchanged := st.unchanged ++ [p] }

/-- `compareAndCreateActionMap` (src/pageMap.ts): the first pass folds
`processSourcePage` over the source pages; the second pass filters the
content files whose id was never added to `existingIds` into `toDelete`. -/
def compareAndCreateActionMap (normDate : String → String)
    (sourcePages : List PageMapItem) (contentFiles : List ContentFileMapItem) :
    PageActionMap :=
  let st := sourcePages.foldl (processSourcePage normDate contentFiles)
    ⟨[], [], [], [], []⟩
  { toCreate := st.toCreate
    toUpdate := st.toUpdate
    toDelete := contentFiles.filter (fun f => !(st.existingIds.contains f.id))
    unchanged := st.unchanged
    renamedPages := st.renamedPages }

/-- The per-page classification implicit in the first pass, used to state
the characterization lemmas. -/
inductive PageAction where
  | create
  | update
  | unchangedA
deriving DecidableEq, Repr

/-- Which of the three action lists a processed source page lands in. -/
def classifyPage (normDate : String → String)
    (contentFiles : List ContentFileMapItem) (p : PageMapItem) : PageAction :=
  match contentFiles.find? (fun f => f.id == p.id) with
  | none => .create
  | some f =>
    if timestampsDiffer normDate p f || pageHasStructuralChange p f then .update
    else .unchangedA

/-! ## The delete step of `main` (src/index.ts)

For each `toDelete` entry, `main` removes the whole containing directory
when the file is named `index.md`, and only the file itself otherwise. -/

/-- The filesystem operation the delete step performs for one entry. -/
inductive DeleteAction where
  | removeDir (dir : String)
  | removeFile (path : String)
deriving DecidableEq, Repr

/-- The delete step of `main` (src/index.ts) for one `toDelete` entry. -/
def deleteActionFor (f : ContentFileMapItem) : DeleteAction :=
  if pathBasename f.filepath == "index.md" then .removeDir (pathDirname f.filepath)
  else .removeFile f.filepath

/-- The bundle classification of `buildContentFileMap` (src/pageMap.ts):
a file is a bundle index when it is named `index.md` or `_index.md`. -/
def isBundleFileName (fileName : String) : Bool :=
  fileName == "index.md" || fileName == "_index.md"

/-! ## src/imageTracker.ts

The image directory is modeled by the list of file names it contains
(`files`); `fs.existsSync` on a path answers whether the path is the join
of the working directory, `IMAGE_DIR` and one of those names.  The md5
digest (`crypto.createHash("md5")`), URL parsing (`new URL`) and the
current time are parameters. -/

/-- `IMAGE_DIR` (src/imageTracker.ts). -/
def IMAGE_DIR : String := "static/images"

/-- The parts of a parsed URL that `generateContentId` and
`generateImageFilename` read. -/
structure UrlParts where
  pathname : String
  searchParams : List (String × String)
deriving DecidableEq, Repr

/-- `generateContentId` (src/imageTracker.ts): md5 of the pathname and the
non-`X-Amz-` query parameters, or of the whole URL when parsing fails. -/
def generateContentId (md5 : String → String)
    (parseUrl : String → Option UrlParts) (url : String) : String :=
  match parseUrl url with
  | some u =>
    let contentParts :=
      u.pathname ::
        (u.searchParams.filter (fun kv => !strContains kv.1 "X-Amz-")).map
          (fun kv => kv.1 ++ "=" ++ kv.2)
    md5 (String.intercalate "|" contentParts)
  | none => md5 url

/-- `[a-zA-Z0-9]`. -/
def isAsciiAlnum (c : Char) : Bool :=
  c.isAlphanum

/-- One attempt of the extension regex of `generateImageFilename` at a
fixed length: `len` alphanumerics followed by `?` or the end. -/
def extTryLen (cs : List Char) (len : Nat) : Option String :=
  let cand := cs.take len
  if cand.length == len && cand.all isAsciiAlnum then
    match cs.drop len with
    | [] => some (String.mk cand)
    | c :: _ => if c == '?' then some (String.mk cand) else none
  else none

/-- The extension regex of `generateImageFilename` at one position: a dot,
one to five alphanumerics taken greedily, then `?` or the end. -/
def extMatchHere (cs : List Char) : Option String :=
  match cs with
  | c :: rest =>
    if c == '.' then
      (extTryLen rest 5).orElse (fun _ => (extTryLen rest 4).orElse (fun _ =>
        (extTryLen rest 3).orElse (fun _ => (extTryLen rest 2).orElse (fun _ =>
          extTryLen rest 1))))
    else none
  | [] => none

/-- Leftmost match of the extension regex. -/
def extScan : List Char → Option String
  | [] => none
  | c :: rest =>
    match extMatchHere (c :: rest) with
    | some e => some e
    | none => extScan rest

/-- The extension computation of `generateImageFilename`: first match of
the extension regex against the URL pathname, lowercased; `jpg` when the
URL does not parse or nothing matches. -/
def imageExtensionOf (parseUrl : String → Option UrlParts) (url : String) : String :=
  match parseUrl url with
  | some u =>
    match extScan u.pathname.data with
    | some e => jsToLowerCase e
    | none => "jpg"
  | none => "jpg"

/-- `generateImageFilename` (src/imageTracker.ts): extension from the URL
pathname (default `jpg`), the first 8 characters of the content id and of
the dash-stripped page id, and the unix-seconds timestamp `now`. -/
def generateImageFilename (md5 : String → String)
    (parseUrl : String → Option UrlParts) (now : Nat) (url pageId : String) :
    String :=
  let extension := imageExtensionOf parseUrl url
  let contentId := strTake (generateContentId md5 parseUrl url) 8
  let pageIdPre := strTake (stripDashes pageId) 8
  "notion-" ++ pageIdPre ++ "-" ++ contentId ++ "-" ++ jsNatToString now ++ "." ++ extension

/-- The metadata `parseFilenameMetadata` extracts; the unix timestamp is
kept as a natural number (the source wraps it in a `Date`). -/
structure FilenameMeta where
  pageIdPre : String
  contentId : String
  timestamp : Nat
  extension : String
deriving DecidableEq, Repr

/-- Decimal value of a digit list (JavaScript `parseInt` on the digits the
regex captured). -/
def natOfDigits (ds : List Char) : Nat :=
  ds.foldl (fun n c => n * 10 + (c.toNat - 48)) 0

/-- The filename-metadata regex of `parseFilenameMetadata` at one
position: the literal `notion-`, 8 lowercase hex digits, a dash, 8
lowercase hex digits, a dash, one or more digits, a dot, and alphanumerics
to the end of the string.  The digit run ends exactly at the dot, so the
split is unique. -/
def parseMetaHere (cs : List Char) : Option FilenameMeta :=
  if "notion-".data.isPrefixOf cs then
    let rest := cs.drop 7
    let pp := rest.take 8
    if pp.length == 8 && pp.all isLowerHexDigit then
      match rest.drop 8 with
      | '-' :: rest2 =>
        let cid := rest2.take 8
        if cid.length == 8 && cid.all isLowerHexDigit then
          match rest2.drop 8 with
          | '-' :: rest3 =>
            let ds := rest3.takeWhile (fun c => c.isDigit)
            if ds.isEmpty then none
            else
              match rest3.drop ds.length with
              | '.' :: rest4 =>
                if !rest4.isEmpty && rest4.all isAsciiAlnum then
                  some ⟨String.mk pp, String.mk cid, natOfDigits ds, String.mk rest4⟩
                else none
              | _ => none
          | _ => none
        else none
      | _ => none
    else none
  else none

/-- Leftmost match of the filename-metadata regex (the regex is not
anchored at the start). -/
def parseMetaScan : List Char → Option FilenameMeta
  | [] => none
  | c :: rest =>
    match parseMetaHere (c :: rest) with
    | some m => some m
    | none => parseMetaScan rest

/-- `parseFilenameMetadata` (src/imageTracker.ts); `none` is the empty
object returned when the regex does not match. -/
def parseFilenameMetadata (filename : String) : Option FilenameMeta :=
  parseMetaScan filename.data

/-- `findExistingImagesForPage` (src/imageTracker.ts): the directory
entries starting with `notion-` plus the page id prefix (and not with a
dot), each joined under `IMAGE_DIR`. -/
def findExistingImagesForPage (files : List String) (pageId : String) :
    List String :=
  let pageIdPre := strTake (stripDashes pageId) 8
  let pattern := "notion-" ++ pageIdPre ++ "-"
  (files.filter (fun f => jsStartsWith f pattern && !jsStartsWith f ".")).map
    (fun f => pathJoin IMAGE_DIR f)

/-- The sort comparator of `findLatestImageByContentId`: newest timestamp
first; an unparseable filename is treated as older. -/
def imageTimestampCmp (a b : String) : Int :=
  match parseFilenameMetadata (pathBasename a), parseFilenameMetadata (pathBasename b) with
  | none, _ => 1
  | some _, none => -1
  | some ma, some mb => (mb.timestamp : Int) - (ma.timestamp : Int)

/-- Stable insertion of `x` into `l` under comparator `c`: `x` goes before
the first element it compares strictly below. -/
def jsInsertBy {α : Type} (c : α → α → Int) (x : α) : List α → List α
  | [] => [x]
  | y :: ys => if c x y < 0 then x :: y :: ys else y :: jsInsertBy c x ys

/-- `Array.prototype.sort` with a consistent comparator, modeled as a
stable insertion sort (ECMAScript sort is stable). -/
def jsSortBy {α : Type} (c : α → α → Int) : List α → List α
  | [] => []
  | x :: xs => jsInsertBy c x (jsSortBy c xs)

/-- `findLatestImageByContentId` (src/imageTracker.ts): among the page's
images whose basename contains `-` plus the first 8 characters of the
content id plus `-`, the one sorting newest; `none` when there are none. -/
def findLatestImageByContentId (files : List String)
    (contentId pageId : String) : Option String :=
  let pageImages := findExistingImagesForPage files pageId
  let shortContentId := strTake contentId 8
  let matchingImages := pageImages.filter
    (fun p => strContains (pathBasename p) ("-" ++ shortContentId ++ "-"))
  if matchingImages.isEmpty then none
  else (jsSortBy imageTimestampCmp matchingImages).head?

/-- `fs.existsSync` against the modeled image directory: the path must be
the working directory joined with `IMAGE_DIR` joined with a listed name. -/
def fsExistsIn (files : List String) (cwd : String) (p : String) : Bool :=
  files.any (fun n => p == pathJoin cwd (pathJoin IMAGE_DIR n))

/-- `shouldFetchImage` (src/imageTracker.ts): fetch unless a matching
image exists in the listing and on disk. -/
def shouldFetchImage (md5 : String → String)
    (parseUrl : String → Option UrlParts) (files : List String) (cwd : String)
    (url pageId : String) : Bool :=
  let contentId := generateContentId md5 parseUrl url
  match findLatestImageByContentId files contentId pageId with
  | none => true
  | some latestImage =>
    if !fsExistsIn files cwd (pathJoin cwd latestImage) then true
    else false

/-- `ImageTrackingInfo` (src/imageTracker.ts). -/
structure ImageTrackingInfo where
  localPath : String
  contentHash : Option String
  lastFetched : String
deriving DecidableEq, Repr

/-- `trackImage` (src/imageTracker.ts): upserts the tracking record for
`contentId`, computing a content hash when the file exists.  `hashFile`
models `calculateFileHash` (md5 of the bytes on disk) and `nowIso` the
current ISO timestamp. -/
def trackImage (hashFile : String → String) (nowIso : String)
    (files : List String) (cwd : String)
    (trackingDb : List (String × ImageTrackingInfo))
    (contentId localPath : String) : List (String × ImageTrackingInfo) :=
  let fullLocalPath := pathJoin cwd localPath
  let contentHash :=
    if fsExistsIn files cwd fullLocalPath then some (hashFile fullLocalPath)
    else none
  assocSet trackingDb contentId ⟨localPath, contentHash, nowIso⟩

/-- The start-anchored owner regex of `cleanupOrphanedImages`: the literal
`notion-`, 8 lowercase hex digits, then a dash; yields the captured owner
prefix. -/
def matchNotionOwnerPre (f : String) : Option String :=
  if jsStartsWith f "notion-" then
    let rest := f.data.drop 7
    let pp := rest.take 8
    if pp.length == 8 && pp.all isLowerHexDigit then
      match rest.drop 8 with
      | '-' :: _ => some (String.mk pp)
      | _ => none
    else none
  else none

/-- The owner prefixes of the active page ids, as built by
`cleanupOrphanedImages`. -/
def activeOwnerPres (activePageIds : List String) : List String :=
  activePageIds.map (fun id => strTake (stripDashes id) 8)

/-- `cleanupOrphanedImages` (src/imageTracker.ts), returning the list of
files it unlinks: the `notion-` files whose captured owner prefix is not
an active prefix (files whose name does not match the owner regex are
kept). -/
def cleanupOrphanedImages (files : List String) (activePageIds : List String) :
    List String :=
  let allImages := files.filter
    (fun f => !jsStartsWith f "." && jsStartsWith f "notion-")
  let activePres := activeOwnerPres activePageIds
  allImages.filter (fun f =>
    match matchNotionOwnerPre f with
    | none => false
    | some pagePre => !activePres.contains pagePre)

/-! ## src/utils/retry.ts -/

/-- The shape of the JavaScript errors `withRetry` inspects: an optional
`code` string and an optional numeric `status`. -/
structure JsError where
  code : Option String
  status : Option Int
deriving DecidableEq, Repr

/-- `RetryConfig` (src/utils/retry.ts); the delay fields take part in no
control-flow decision (sleeping is not modeled). -/
structure RetryConfig where
  maxRetries : Nat
  initialDelayMs : Nat
  maxDelayMs : Nat
  backoffFactor : Nat
  retryableErrors : List String
deriving DecidableEq, Repr

/-- `defaultRetryConfig` (src/utils/retry.ts). -/
def defaultRetryConfig : RetryConfig :=
  ⟨5, 1000, 15000, 2,
    [ "notionhq_client_request_timeout"
    , "ECONNRESET"
    , "ETIMEDOUT"
    , "ENOTFOUND"
    , "EAI_AGAIN" ]⟩

/-- The `shouldRetry` test of `withRetry`: a listed error code, a 5xx
status, or status 429.  A missing `code` or `status` fails each test, as
the JavaScript comparisons do on `undefined`. -/
def isRetryableError (cfg : RetryConfig) (e : JsError) : Bool :=
  (match e.code with
   | some c => cfg.retryableErrors.contains c
   | none => false) ||
  (match e.status with
   | some s => decide (500 ≤ s) && decide (s < 600)
   | none => false) ||
  e.status == some 429

/-- The retry loop of `withRetry`.  The operation is the sequence of
outcomes of its successive invocations (`op k` is attempt `k`).  The
source loop breaks when `retryCount`, which is `k + 1` after attempt `k`,
reaches `maxRetries`, or when the error is not retryable; `fuel` is the
number of retries still allowed, so it starts at `maxRetries - 1`.  The
result pairs the outcome with the number of invocations performed. -/
def withRetryGo {α : Type} (op : Nat → Except JsError α) (cfg : RetryConfig) :
    Nat → Nat → Except JsError α × Nat
  | k, fuel =>
    match op k with
    | .ok v => (.ok v, k + 1)
    | .error e =>
      if isRetryableError cfg e then
        match fuel with
        | 0 => (.error e, k + 1)
        | fuel' + 1 => withRetryGo op cfg (k + 1) fuel'
      else (.error e, k + 1)

/-- `withRetry` (src/utils/retry.ts): run the loop from attempt 0.  The
thrown `lastError` is the `.error` payload, unwrapped. -/
def withRetry {α : Type} (cfg : RetryConfig) (op : Nat → Except JsError α) :
    Except JsError α × Nat :=
  withRetryGo op cfg 0 (cfg.maxRetries - 1)

/-! ## Helper lemmas -/

theorem stringDataInj {s t : String} (h : s.data = t.data) : s = t := by
  cases s; cases t; simp_all

/-! ## Claim C4: path derivation is deterministic -/

/-- C4: `getBundlePath` is a pure function of its arguments: for equal
titles and identical page id, content type, target folder and bundle
configuration, two invocations return byte-identical `BundlePath` values
(embedded as equality of the computed `Option BundlePath`). -/
theorem getBundlePath_deterministic (t1 t2 pageId contentType targetFolder : String)
    (cfg : HugoBundleConfig) (h : t1 = t2) :
    getBundlePath ⟨t1, pageId, contentType, targetFolder, cfg⟩ =
      getBundlePath ⟨t2, pageId, contentType, targetFolder, cfg⟩ := by
  rw [h]

/-- Witness for C4 at a concrete title and configuration. -/
theorem getBundlePath_deterministic_witness :
    ("My Post" : String) = "My Post" ∧
    getBundlePath ⟨"My Post", "abc", "posts", "posts", DEFAULT_HUGO_BUNDLE_CONFIG⟩ =
      getBundlePath ⟨"My Post", "abc", "posts", "posts", DEFAULT_HUGO_BUNDLE_CONFIG⟩ :=
  ⟨rfl, getBundlePath_deterministic "My Post" "My Post" "abc" "posts" "posts"
    DEFAULT_HUGO_BUNDLE_CONFIG rfl⟩

/-! ## Claim C3: id-based uniqueness of derived names

`getBundlePath` never reads the page id, so two records with identical
titles and configuration derive identical output paths even with distinct
ids — the claim fails on `getBundlePath`.  What does hold is that
`getFileName` appends the dash-stripped id, so filenames stay distinct. -/

/-- C3 counterexample: two records with distinct ids but the same title,
content type, target folder and configuration receive the same derived
output path from `getBundlePath` — the id is not embedded in the bundle
path. -/
theorem getBundlePath_ignores_pageId :
    ("11111111-1111-1111-1111-111111111111" : String) ≠
      "22222222-2222-2222-2222-222222222222" ∧
    getBundlePath ⟨"Hello World", "11111111-1111-1111-1111-111111111111",
        "posts", "posts", DEFAULT_HUGO_BUNDLE_CONFIG⟩ =
      getBundlePath ⟨"Hello World", "22222222-2222-2222-2222-222222222222",
        "posts", "posts", DEFAULT_HUGO_BUNDLE_CONFIG⟩ ∧
    getBundlePath ⟨"Hello World", "11111111-1111-1111-1111-111111111111",
        "posts", "posts", DEFAULT_HUGO_BUNDLE_CONFIG⟩ =
      some ⟨"content/posts/hello-world", "content/posts/hello-world/index.md",
        "hello-world", "index.md", true⟩ := by
  refine ⟨by decide, rfl, by decide⟩

/-- C3 amended: the id-embedding uniqueness holds of `getFileName`, which
appends the dash-stripped page id: records whose ids differ after dash
removal receive distinct filenames even when their titles are identical
(`getBundlePath` itself ignores the id, see the counterexample). -/
theorem getFileName_distinct_ids (title id1 id2 : String)
    (h : stripDashes id1 ≠ stripDashes id2) :
    getFileName title id1 ≠ getFileName title id2 := by
  intro he
  apply h
  have hd : (slugify title).data ++ ("-".data ++ ((stripDashes id1).data ++ (".md").data)) =
      (slugify title).data ++ ("-".data ++ ((stripDashes id2).data ++ (".md").data)) := by
    simpa [getFileName, String.data_append, List.append_assoc] using congrArg String.data he
  have h2 := List.append_cancel_left hd
  have h3 := List.append_cancel_left h2
  have h4 := List.append_cancel_right h3
  exact stringDataInj h4

/-- Witness for the amended C3 at concrete ids sharing a slug. -/
theorem getFileName_distinct_ids_witness :
    stripDashes "11111111-1111-1111-1111-111111111111" ≠
      stripDashes "22222222-2222-2222-2222-222222222222" ∧
    getFileName "Hello World" "11111111-1111-1111-1111-111111111111" ≠
      getFileName "Hello World" "22222222-2222-2222-2222-222222222222" :=
  ⟨by decide, getFileName_distinct_ids "Hello World" _ _ (by decide)⟩

/-! ## Claim C5: pages with no classification properties -/

theorem shouldProcessLoop_no_effect (props : List (String × PropValue))
    (h : ∀ kv ∈ props, propNoClassificationEffect kv = true) :
    ∀ hf hp : Bool, shouldProcessLoop props hf hp = some (hf, hp, true) := by
  induction props with
  | nil => intro hf hp; rfl
  | cons kv rest ih =>
    intro hf hp
    have hkv : propNoClassificationEffect kv = true := h kv (by simp)
    have hrest : ∀ kv' ∈ rest, propNoClassificationEffect kv' = true :=
      fun kv' hm => h kv' (by simp [hm])
    obtain ⟨key, v⟩ := kv
    cases v with
    | select sv =>
      cases sv with
      | none => simp [shouldProcessLoop, ih hrest]
      | some n =>
        simp only [propNoClassificationEffect, Bool.or_eq_true] at hkv
        rcases hkv with hn | hkeys
        · have hn' : (n == "") = true := hn
          simp [shouldProcessLoop, hn', ih hrest]
        · simp only [Bool.not_eq_true', Bool.or_eq_false_iff] at hkeys
          obtain ⟨⟨⟨hk1, hk2⟩, hk3⟩, hk4⟩ := hkeys
          simp [shouldProcessLoop, hk1, hk2, hk3, hk4, ih hrest]
    | status sv =>
      cases sv with
      | none => simp [shouldProcessLoop, ih hrest]
      | some n =>
        simp only [propNoClassificationEffect] at hkv
        simp [shouldProcessLoop, hkv, ih hrest]
    | otherProp => simp [shouldProcessLoop, ih hrest]

/-- C5 counterexample: a page with no properties at all (so in particular
no Format, Platform, or Status), mounted from a data source, is not
processed: `getPageShouldBeProcessed` returns `false`, not `true` — the
Format/Platform gates fail closed. -/
theorem pageWithNoProps_not_processed :
    getPageShouldBeProcessed ⟨"data_source_id", []⟩ = false := rfl

/-- C5 amended: on a page none of whose properties carries classification
information (in particular a page with no Format, Platform, or Status
properties at all), `getPageShouldBeProcessed` returns `true` only for
child pages (parent type `"page_id"`); for every other parent it returns
`false`, because the Format and Platform gates fail closed rather than
open. -/
theorem noClassificationProps_fails_closed (page : NotionPage)
    (h : ∀ kv ∈ page.properties, propNoClassificationEffect kv = true) :
    getPageShouldBeProcessed page = (page.parentType == "page_id") := by
  unfold getPageShouldBeProcessed
  cases hpt : page.parentType == "page_id"
  · simp [shouldProcessLoop_no_effect page.properties h]
  · simp

/-- Witness for the amended C5: a database-mounted page whose only
property is unrelated to classification is excluded. -/
theorem noClassificationProps_fails_closed_witness :
    (∀ kv ∈ ([("Extra", PropValue.otherProp)] : List (String × PropValue)),
        propNoClassificationEffect kv = true) ∧
    getPageShouldBeProcessed ⟨"data_source_id", [("Extra", PropValue.otherProp)]⟩ =
      ("data_source_id" == "page_id") :=
  ⟨by decide, noClassificationProps_fails_closed _ (by decide)⟩

/-! ## Claim C7: cleanup never deletes an active owner's asset -/

/-- C7: `cleanupOrphanedImages` never deletes a file whose encoded owner
prefix belongs to an active page id, and every file it does delete carries
an owner prefix that is not active. -/
theorem cleanupOrphanedImages_safety (files activePageIds : List String) :
    (∀ f ∈ files, ∀ ownerPre, matchNotionOwnerPre f = some ownerPre →
        ownerPre ∈ activeOwnerPres activePageIds →
        f ∉ cleanupOrphanedImages files activePageIds) ∧
    (∀ f ∈ cleanupOrphanedImages files activePageIds,
        ∃ ownerPre, matchNotionOwnerPre f = some ownerPre ∧
          ownerPre ∉ activeOwnerPres activePageIds) := by
  constructor
  · intro f _ ownerPre hm hin hmem
    unfold cleanupOrphanedImages at hmem
    rw [List.mem_filter] at hmem
    obtain ⟨-, hpred⟩ := hmem
    rw [hm] at hpred
    simp only [Bool.not_eq_true'] at hpred
    have : (activeOwnerPres activePageIds).contains ownerPre = true := by simpa using hin
    rw [this] at hpred
    cases hpred
  · intro f hmem
    unfold cleanupOrphanedImages at hmem
    rw [List.mem_filter] at hmem
    obtain ⟨-, hpred⟩ := hmem
    cases hm : matchNotionOwnerPre f with
    | none => rw [hm] at hpred; exact absurd hpred (by simp)
    | some ownerPre =>
      refine ⟨ownerPre, rfl, ?_⟩
      rw [hm] at hpred
      simp only [Bool.not_eq_true'] at hpred
      simpa using hpred

/-- Witness for C7: an asset owned by an active page survives a cleanup
that deletes another owner's asset. -/
theorem cleanupOrphanedImages_safety_witness :
    "notion-aaaaaaaa-bbbbbbbb-1.png" ∉
      cleanupOrphanedImages
        ["notion-aaaaaaaa-bbbbbbbb-1.png", "notion-deadbeef-bbbbbbbb-1.png"]
        ["aaaaaaaa-0000-0000-0000-000000000000"] :=
  (cleanupOrphanedImages_safety _ _).1 _ (by decide) "aaaaaaaa" (by decide) (by decide)

/-! ## Claim C8: retry semantics -/

theorem withRetryGo_exhaust {α : Type} (op : Nat → Except JsError α)
    (cfg : RetryConfig) (es : Nat → JsError) :
    ∀ fuel k, (∀ j, k ≤ j → j ≤ k + fuel →
        op j = .error (es j) ∧ isRetryableError cfg (es j) = true) →
      withRetryGo op cfg k fuel = (.error (es (k + fuel)), k + fuel + 1) := by
  intro fuel
  induction fuel with
  | zero =>
    intro k h
    obtain ⟨h1, h2⟩ := h k le_rfl (by omega)
    simp [withRetryGo, h1, h2]
  | succ n ih =>
    intro k h
    obtain ⟨h1, h2⟩ := h k le_rfl (by omega)
    have hrec := ih (k + 1) (fun j hj1 hj2 => h j (by omega) (by omega))
    rw [withRetryGo, h1]
    simp only [h2, if_true]
    rw [hrec]
    have heq : k + 1 + n = k + (n + 1) := by omega
    rw [heq]

/-- C8: `withRetry` retries only retryable errors — a non-retryable error
on the first attempt propagates immediately, unwrapped, after exactly one
invocation; and when every attempt up to `maxRetries` fails with a
retryable error, the error finally thrown is the last error the operation
itself raised, after exactly `maxRetries` invocations. -/
theorem withRetry_error_semantics {α : Type} (cfg : RetryConfig)
    (op : Nat → Except JsError α) :
    (∀ e, op 0 = .error e → isRetryableError cfg e = false →
        withRetry cfg op = (.error e, 1)) ∧
    (∀ es : Nat → JsError, 1 ≤ cfg.maxRetries →
        (∀ k, k < cfg.maxRetries →
          op k = .error (es k) ∧ isRetryableError cfg (es k) = true) →
        withRetry cfg op = (.error (es (cfg.maxRetries - 1)), cfg.maxRetries)) := by
  constructor
  · intro e h1 h2
    unfold withRetry withRetryGo
    simp [h1, h2]
  · intro es hpos hall
    unfold withRetry
    rw [withRetryGo_exhaust op cfg es (cfg.maxRetries - 1) 0
      (fun j hj1 hj2 => hall j (by omega))]
    have heq : 0 + (cfg.maxRetries - 1) = cfg.maxRetries - 1 := by omega
    rw [heq]
    have heq2 : cfg.maxRetries - 1 + 1 = cfg.maxRetries := by omega
    rw [heq2]

/-- Witness for C8: a non-retryable error code propagates after one
attempt under the default configuration. -/
theorem withRetry_error_semantics_witness :
    withRetry defaultRetryConfig
        (fun _ => (Except.error ⟨some "object_not_found", some 404⟩ : Except JsError Nat)) =
      (Except.error ⟨some "object_not_found", some 404⟩, 1) :=
  (withRetry_error_semantics defaultRetryConfig _).1 _ rfl (by decide)

/-! ## Characterization of the reconciler's first pass -/

theorem processSourcePage_toCreate (nd : String → String)
    (cfs : List ContentFileMapItem) (st : CompareState) (p : PageMapItem) :
    (processSourcePage nd cfs st p).toCreate =
      st.toCreate ++
        (if p.shouldProcess && (classifyPage nd cfs p == PageAction.create) then [p] else []) := by
  unfold processSourcePage classifyPage
  cases hsp : p.shouldProcess
  · simp [hsp]
  · cases hfind : cfs.find? (fun f => f.id == p.id)
    · simp [hsp, hfind]
    · rename_i f
      cases hib : f.isBundle
      · cases hcond : (timestampsDiffer nd p f || pageHasStructuralChange p f) <;>
          simp [hsp, hfind, hib, hcond]
      · cases hbrc : bundleRenameCheck p f <;>
          cases hcond : (timestampsDiffer nd p f || pageHasStructuralChange p f) <;>
            simp [hsp, hfind, hib, hbrc, hcond]

theorem processSourcePage_toUpdate (nd : String → String)
    (cfs : List ContentFileMapItem) (st : CompareState) (p : PageMapItem) :
    (processSourcePage nd cfs st p).toUpdate =
      st.toUpdate ++
        (if p.shouldProcess && (classifyPage nd cfs p == PageAction.update) then [p] else []) := by
  unfold processSourcePage classifyPage
  cases hsp : p.shouldProcess
  · simp [hsp]
  · cases hfind : cfs.find? (fun f => f.id == p.id)
    · simp [hsp, hfind]
    · rename_i f
      cases hib : f.isBundle
      · cases hcond : (timestampsDiffer nd p f || pageHasStructuralChange p f) <;>
          simp [hsp, hfind, hib, hcond]
      · cases hbrc : bundleRenameCheck p f <;>
          cases hcond : (timestampsDiffer nd p f || pageHasStructuralChange p f) <;>
            simp [hsp, hfind, hib, hbrc, hcond]

theorem processSourcePage_unchanged (nd : String → String)
    (cfs : List ContentFileMapItem) (st : CompareState) (p : PageMapItem) :
    (processSourcePage nd cfs st p).unchanged =
      st.unchanged ++
        (if p.shouldProcess && (classifyPage nd cfs p == PageAction.unchangedA) then [p] else []) := by
  unfold processSourcePage classifyPage
  cases hsp : p.shouldProcess
  · simp [hsp]
  · cases hfind : cfs.find? (fun f => f.id == p.id)
    · simp [hsp, hfind]
    · rename_i f
      cases hib : f.isBundle
      · cases hcond : (timestampsDiffer nd p f || pageHasStructuralChange p f) <;>
          simp [hsp, hfind, hib, hcond]
      · cases hbrc : bundleRenameCheck p f <;>
          cases hcond : (timestampsDiffer nd p f || pageHasStructuralChange p f) <;>
            simp [hsp, hfind, hib, hbrc, hcond]

theorem processSourcePage_existingIds (nd : String → String)
    (cfs : List ContentFileMapItem) (st : CompareState) (p : PageMapItem) :
    (processSourcePage nd cfs st p).existingIds =
      st.existingIds ++ (if p.shouldProcess then [p.id] else []) := by
  unfold processSourcePage
  cases hsp : p.shouldProcess
  · simp [hsp]
  · cases hfind : cfs.find? (fun f => f.id == p.id)
    · simp [hsp, hfind]
    · rename_i f
      cases hib : f.isBundle
      · cases hcond : (timestampsDiffer nd p f || pageHasStructuralChange p f) <;>
          simp [hsp, hfind, hib, hcond]
      · cases hbrc : bundleRenameCheck p f <;>
          cases hcond : (timestampsDiffer nd p f || pageHasStructuralChange p f) <;>
            simp [hsp, hfind, hib, hbrc, hcond]

theorem lookupAssoc_assocSet_self {α : Type} (l : List (String × α)) (k : String) (v : α) :
    lookupAssoc (assocSet l k v) k = some v := by
  induction l with
  | nil => simp [assocSet, lookupAssoc, List.find?]
  | cons kv rest ih =>
    obtain ⟨k', v'⟩ := kv
    cases hk : k' == k
    · simpa [assocSet, hk, lookupAssoc, List.find?] using ih
    · simp [assocSet, hk, lookupAssoc, List.find?]

theorem lookupAssoc_assocSet_ne {α : Type} (l : List (String × α)) (k k' : String)
    (v : α) (h : ¬(k' = k)) :
    lookupAssoc (assocSet l k v) k' = lookupAssoc l k' := by
  have hbeq : (k == k') = false := by simpa using fun he => h he.symm
  induction l with
  | nil => simp [assocSet, lookupAssoc, List.find?, hbeq]
  | cons kv rest ih =>
    obtain ⟨k'', v''⟩ := kv
    cases hk : k'' == k
    · simp only [assocSet, hk, Bool.false_eq_true, if_false]
      simp [lookupAssoc, List.find?] at ih ⊢
      cases hx : k'' == k' <;> simp [hx, ih]
    · have hkk : k'' = k := by simpa using hk
      subst hkk
      simp [assocSet, lookupAssoc, List.find?, hbeq]

theorem processSourcePage_renamed_lookup_ne (nd : String → String)
    (cfs : List ContentFileMapItem) (st : CompareState) (p : PageMapItem)
    (x : String) (hx : ¬(x = p.id)) :
    lookupAssoc (processSourcePage nd cfs st p).renamedPages x =
      lookupAssoc st.renamedPages x := by
  unfold processSourcePage
  cases hsp : p.shouldProcess
  · simp [hsp]
  · cases hfind : cfs.find? (fun f => f.id == p.id)
    · simp [hsp, hfind]
    · rename_i f
      cases hib : f.isBundle
      · cases hcond : (timestampsDiffer nd p f || pageHasStructuralChange p f) <;>
          simp [hsp, hfind, hib, hcond]
      · cases hbrc : bundleRenameCheck p f <;>
          cases hcond : (timestampsDiffer nd p f || pageHasStructuralChange p f) <;>
            simp [hsp, hfind, hib, hbrc, hcond, lookupAssoc_assocSet_ne _ _ _ _ hx]

theorem processSourcePage_renamed_lookup_self (nd : String → String)
    (cfs : List ContentFileMapItem) (st : CompareState) (p : PageMapItem)
    (f : ContentFileMapItem) (r : RenameInfo)
    (hsp : p.shouldProcess = true)
    (hfind : cfs.find? (fun g => g.id == p.id) = some f)
    (hib : f.isBundle = true) (hbrc : bundleRenameCheck p f = some r) :
    lookupAssoc (processSourcePage nd cfs st p).renamedPages p.id = some r := by
  unfold processSourcePage
  cases hcond : (timestampsDiffer nd p f || pageHasStructuralChange p f) <;>
    simp [hsp, hfind, hib, hbrc, hcond, lookupAssoc_assocSet_self]

theorem foldl_processSourcePage_toCreate (nd : String → String)
    (cfs : List ContentFileMapItem) (pages : List PageMapItem) :
    ∀ st : CompareState,
      (pages.foldl (processSourcePage nd cfs) st).toCreate =
        st.toCreate ++ pages.filter
          (fun p => p.shouldProcess && (classifyPage nd cfs p == PageAction.create)) := by
  induction pages with
  | nil => intro st; simp
  | cons p rest ih =>
    intro st
    rw [List.foldl_cons, ih, processSourcePage_toCreate]
    cases hc : (p.shouldProcess && (classifyPage nd cfs p == PageAction.create)) <;>
      simp [List.filter_cons, hc]

theorem foldl_processSourcePage_toUpdate (nd : String → String)
    (cfs : List ContentFileMapItem) (pages : List PageMapItem) :
    ∀ st : CompareState,
      (pages.foldl (processSourcePage nd cfs) st).toUpdate =
        st.toUpdate ++ pages.filter
          (fun p => p.shouldProcess && (classifyPage nd cfs p == PageAction.update)) := by
  induction pages with
  | nil => intro st; simp
  | cons p rest ih =>
    intro st
    rw [List.foldl_cons, ih, processSourcePage_toUpdate]
    cases hc : (p.shouldProcess && (classifyPage nd cfs p == PageAction.update)) <;>
      simp [List.filter_cons, hc]

theorem foldl_processSourcePage_unchanged (nd : String → String)
    (cfs : List ContentFileMapItem) (pages : List PageMapItem) :
    ∀ st : CompareState,
      (pages.foldl (processSourcePage nd cfs) st).unchanged =
        st.unchanged ++ pages.filter
          (fun p => p.shouldProcess && (classifyPage nd cfs p == PageAction.unchangedA)) := by
  induction pages with
  | nil => intro st; simp
  | cons p rest ih =>
    intro st
    rw [List.foldl_cons, ih, processSourcePage_unchanged]
    cases hc : (p.shouldProcess && (classifyPage nd cfs p == PageAction.unchangedA)) <;>
      simp [List.filter_cons, hc]

theorem foldl_processSourcePage_existingIds (nd : String → String)
    (cfs : List ContentFileMapItem) (pages : List PageMapItem) :
    ∀ st : CompareState,
      (pages.foldl (processSourcePage nd cfs) st).existingIds =
        st.existingIds ++
          (pages.filter (fun p => p.shouldProcess)).map (fun p => p.id) := by
  induction pages with
  | nil => intro st; simp
  | cons p rest ih =>
    intro st
    rw [List.foldl_cons, ih, processSourcePage_existingIds]
    cases hc : p.shouldProcess <;> simp [List.filter_cons, hc]

theorem foldl_renamed_lookup_of_not_mem (nd : String → String)
    (cfs : List ContentFileMapItem) (pages : List PageMapItem) (x : String) :
    ∀ st : CompareState, (∀ q ∈ pages, ¬(x = q.id)) →
      lookupAssoc (pages.foldl (processSourcePage nd cfs) st).renamedPages x =
        lookupAssoc st.renamedPages x := by
  induction pages with
  | nil => intro st _; rfl
  | cons q rest ih =>
    intro st h
    rw [List.foldl_cons, ih _ (fun q' hq' => h q' (by simp [hq'])),
      processSourcePage_renamed_lookup_ne nd cfs st q x (h q (by simp))]

theorem foldl_renamed_lookup_self (nd : String → String)
    (cfs : List ContentFileMapItem) (pages : List PageMapItem)
    (p : PageMapItem) (f : ContentFileMapItem) (r : RenameInfo)
    (hdist : pages.Pairwise (fun a b => a.id ≠ b.id)) (hp : p ∈ pages)
    (hsp : p.shouldProcess = true)
    (hfind : cfs.find? (fun g => g.id == p.id) = some f)
    (hib : f.isBundle = true) (hbrc : bundleRenameCheck p f = some r) :
    ∀ st : CompareState,
      lookupAssoc (pages.foldl (processSourcePage nd cfs) st).renamedPages p.id = some r := by
  induction pages with
  | nil => cases hp
  | cons q rest ih =>
    intro st
    rw [List.foldl_cons]
    rcases List.mem_cons.mp hp with hqp | hprest
    · subst hqp
      have hpair : ∀ b ∈ rest, p.id ≠ b.id := (List.pairwise_cons.mp hdist).1
      rw [foldl_renamed_lookup_of_not_mem nd cfs rest p.id _ (fun b hb => hpair b hb)]
      exact processSourcePage_renamed_lookup_self nd cfs st p f r hsp hfind hib hbrc
    · exact ih (List.pairwise_cons.mp hdist).2 hprest _

theorem mem_toCreate_iff (nd : String → String) (pages : List PageMapItem)
    (cfs : List ContentFileMapItem) (p : PageMapItem) :
    p ∈ (compareAndCreateActionMap nd pages cfs).toCreate ↔
      p ∈ pages ∧ p.shouldProcess = true ∧ classifyPage nd cfs p = .create := by
  simp only [compareAndCreateActionMap]
  rw [foldl_processSourcePage_toCreate]
  simp [List.mem_filter, and_assoc]

theorem mem_toUpdate_iff (nd : String → String) (pages : List PageMapItem)
    (cfs : List ContentFileMapItem) (p : PageMapItem) :
    p ∈ (compareAndCreateActionMap nd pages cfs).toUpdate ↔
      p ∈ pages ∧ p.shouldProcess = true ∧ classifyPage nd cfs p = .update := by
  simp only [compareAndCreateActionMap]
  rw [foldl_processSourcePage_toUpdate]
  simp [List.mem_filter, and_assoc]

theorem mem_unchanged_iff (nd : String → String) (pages : List PageMapItem)
    (cfs : List ContentFileMapItem) (p : PageMapItem) :
    p ∈ (compareAndCreateActionMap nd pages cfs).unchanged ↔
      p ∈ pages ∧ p.shouldProcess = true ∧ classifyPage nd cfs p = .unchangedA := by
  simp only [compareAndCreateActionMap]
  rw [foldl_processSourcePage_unchanged]
  simp [List.mem_filter, and_assoc]

theorem mem_toDelete_iff (nd : String → String) (pages : List PageMapItem)
    (cfs : List ContentFileMapItem) (f : ContentFileMapItem) :
    f ∈ (compareAndCreateActionMap nd pages cfs).toDelete ↔
      f ∈ cfs ∧ ∀ p ∈ pages, p.shouldProcess = true → p.id ≠ f.id := by
  simp only [compareAndCreateActionMap]
  rw [List.mem_filter, foldl_processSourcePage_existingIds]
  simp only [List.nil_append]
  constructor
  · rintro ⟨hmem, hpred⟩
    refine ⟨hmem, fun p hp hsp heq => ?_⟩
    simp only [Bool.not_eq_true'] at hpred
    have : f.id ∈ (pages.filter (fun p => p.shouldProcess)).map (fun p => p.id) := by
      refine List.mem_map.mpr ⟨p, List.mem_filter.mpr ⟨hp, hsp⟩, heq⟩
    rw [show ((pages.filter (fun p => p.shouldProcess)).map (fun p => p.id)).contains f.id = true
      from by simpa using this] at hpred
    cases hpred
  · rintro ⟨hmem, hall⟩
    refine ⟨hmem, ?_⟩
    simp only [Bool.not_eq_true']
    have : f.id ∉ (pages.filter (fun p => p.shouldProcess)).map (fun p => p.id) := by
      intro hin
      obtain ⟨p, hpf, heq⟩ := List.mem_map.mp hin
      obtain ⟨hp, hsp⟩ := List.mem_filter.mp hpf
      exact hall p hp hsp heq
    simpa using this

/-! ## Claim C1: the action map partitions processed records -/

/-- C1: with pairwise-distinct source ids, every processed source record
lands in exactly one of `toCreate`, `toUpdate`, `unchanged`; the three
lists are pairwise disjoint over ids; and `toDelete` holds exactly the
content files whose id matches no processed source record. -/
theorem reconcile_partition (nd : String → String) (pages : List PageMapItem)
    (cfs : List ContentFileMapItem)
    (hdist : pages.Pairwise (fun a b => a.id ≠ b.id)) :
    (∀ p ∈ pages, p.shouldProcess = true →
      ((p ∈ (compareAndCreateActionMap nd pages cfs).toCreate ∧
        p ∉ (compareAndCreateActionMap nd pages cfs).toUpdate ∧
        p ∉ (compareAndCreateActionMap nd pages cfs).unchanged) ∨
       (p ∉ (compareAndCreateActionMap nd pages cfs).toCreate ∧
        p ∈ (compareAndCreateActionMap nd pages cfs).toUpdate ∧
        p ∉ (compareAndCreateActionMap nd pages cfs).unchanged) ∨
       (p ∉ (compareAndCreateActionMap nd pages cfs).toCreate ∧
        p ∉ (compareAndCreateActionMap nd pages cfs).toUpdate ∧
        p ∈ (compareAndCreateActionMap nd pages cfs).unchanged))) ∧
    (∀ p ∈ (compareAndCreateActionMap nd pages cfs).toCreate,
     ∀ q ∈ (compareAndCreateActionMap nd pages cfs).toUpdate, p.id ≠ q.id) ∧
    (∀ p ∈ (compareAndCreateActionMap nd pages cfs).toCreate,
     ∀ q ∈ (compareAndCreateActionMap nd pages cfs).unchanged, p.id ≠ q.id) ∧
    (∀ p ∈ (compareAndCreateActionMap nd pages cfs).toUpdate,
     ∀ q ∈ (compareAndCreateActionMap nd pages cfs).unchanged, p.id ≠ q.id) ∧
    (∀ f : ContentFileMapItem,
      f ∈ (compareAndCreateActionMap nd pages cfs).toDelete ↔
        f ∈ cfs ∧ ∀ p ∈ pages, p.shouldProcess = true → p.id ≠ f.id) := by
  have hsymm : Symmetric (fun a b : PageMapItem => a.id ≠ b.id) :=
    fun a b h => h.symm
  refine ⟨?_, ?_, ?_, ?_, fun f => mem_toDelete_iff nd pages cfs f⟩
  · intro p hp hsp
    cases hcl : classifyPage nd cfs p with
    | create =>
      refine Or.inl ⟨(mem_toCreate_iff nd pages cfs p).mpr ⟨hp, hsp, hcl⟩, ?_, ?_⟩
      · intro hm
        have hx := ((mem_toUpdate_iff nd pages cfs p).mp hm).2.2
        rw [hcl] at hx
        cases hx
      · intro hm
        have hx := ((mem_unchanged_iff nd pages cfs p).mp hm).2.2
        rw [hcl] at hx
        cases hx
    | update =>
      refine Or.inr (Or.inl ⟨?_, (mem_toUpdate_iff nd pages cfs p).mpr ⟨hp, hsp, hcl⟩, ?_⟩)
      · intro hm
        have hx := ((mem_toCreate_iff nd pages cfs p).mp hm).2.2
        rw [hcl] at hx
        cases hx
      · intro hm
        have hx := ((mem_unchanged_iff nd pages cfs p).mp hm).2.2
        rw [hcl] at hx
        cases hx
    | unchangedA =>
      refine Or.inr (Or.inr ⟨?_, ?_, (mem_unchanged_iff nd pages cfs p).mpr ⟨hp, hsp, hcl⟩⟩)
      · intro hm
        have hx := ((mem_toCreate_iff nd pages cfs p).mp hm).2.2
        rw [hcl] at hx
        cases hx
      · intro hm
        have hx := ((mem_toUpdate_iff nd pages cfs p).mp hm).2.2
        rw [hcl] at hx
        cases hx
  · intro p hpc q hqu
    obtain ⟨hp, -, hclp⟩ := (mem_toCreate_iff nd pages cfs p).mp hpc
    obtain ⟨hq, -, hclq⟩ := (mem_toUpdate_iff nd pages cfs q).mp hqu
    refine hdist.forall hsymm hp hq (fun he => ?_)
    rw [he, hclq] at hclp
    cases hclp
  · intro p hpc q hqu
    obtain ⟨hp, -, hclp⟩ := (mem_toCreate_iff nd pages cfs p).mp hpc
    obtain ⟨hq, -, hclq⟩ := (mem_unchanged_iff nd pages cfs q).mp hqu
    refine hdist.forall hsymm hp hq (fun he => ?_)
    rw [he, hclq] at hclp
    cases hclp
  · intro p hpc q hqu
    obtain ⟨hp, -, hclp⟩ := (mem_toUpdate_iff nd pages cfs p).mp hpc
    obtain ⟨hq, -, hclq⟩ := (mem_unchanged_iff nd pages cfs q).mp hqu
    refine hdist.forall hsymm hp hq (fun he => ?_)
    rw [he, hclq] at hclp
    cases hclp

/-- Witness for C1: on a concrete one-page, one-stale-file input, the
stale file lands in `toDelete`. -/
theorem reconcile_partition_witness :
    (⟨"c3", "content/posts/gone/index.md", "index.md", "t0", "posts", true,
        none, none⟩ : ContentFileMapItem) ∈
      (compareAndCreateActionMap (fun s => s)
        [⟨"a1", "Hello", "index.md", "t1", "posts", .database, "db", true⟩]
        [⟨"c3", "content/posts/gone/index.md", "index.md", "t0", "posts", true,
          none, none⟩]).toDelete :=
  ((reconcile_partition (fun s => s)
      [⟨"a1", "Hello", "index.md", "t1", "posts", .database, "db", true⟩]
      [⟨"c3", "content/posts/gone/index.md", "index.md", "t0", "posts", true,
        none, none⟩] (by decide)).2.2.2.2 _).mpr ⟨by decide, by decide⟩

/-! ## Claim C2: structural changes force updates; rename recording -/

/-- C2 counterexample: a processed record whose matching output is a flat
file (while the derived path is a bundle — a flat-to-bundle structural
change, one of the claim's three mismatch cases) is placed in `toUpdate`
even with identical timestamps, but no rename entry is recorded for it:
`renamedPages` stays empty, contradicting the claim that a rename entry
maps the id to the old and new names in this case. -/
theorem flatToBundle_records_no_rename :
    (⟨"id1", "Hello", "index.md", "2024-01-01T00:00:00.000Z", "posts",
        .database, "db", true⟩ : PageMapItem) ∈
      (compareAndCreateActionMap (fun s => s)
        [⟨"id1", "Hello", "index.md", "2024-01-01T00:00:00.000Z", "posts",
          .database, "db", true⟩]
        [⟨"id1", "content/posts/hello-old.md", "hello-old.md",
          "2024-01-01T00:00:00.000Z", "posts", false, none, none⟩]).toUpdate ∧
    (compareAndCreateActionMap (fun s => s)
        [⟨"id1", "Hello", "index.md", "2024-01-01T00:00:00.000Z", "posts",
          .database, "db", true⟩]
        [⟨"id1", "content/posts/hello-old.md", "hello-old.md",
          "2024-01-01T00:00:00.000Z", "posts", false, none, none⟩]).renamedPages = [] := by
  constructor
  · decide
  · decide

/-- C2 amended: for a processed record with a matching output entry, a
bundle-directory-name mismatch places the record in `toUpdate` and records
the rename entry, and a flat-to-bundle structural change places the record
in `toUpdate` — both regardless of the timestamps, so also when they are
equal.  (In the flat-to-bundle case no rename entry is recorded, see the
counterexample; a flat-to-flat filename mismatch does not arise under the
default configuration, which always derives bundle paths.) -/
theorem rename_detection_updates (nd : String → String)
    (pages : List PageMapItem) (cfs : List ContentFileMapItem)
    (p : PageMapItem) (f : ContentFileMapItem)
    (hdist : pages.Pairwise (fun a b => a.id ≠ b.id))
    (hp : p ∈ pages) (hsp : p.shouldProcess = true)
    (hfind : cfs.find? (fun g => g.id == p.id) = some f) :
    (f.isBundle = true → ∀ r, bundleRenameCheck p f = some r →
        p ∈ (compareAndCreateActionMap nd pages cfs).toUpdate ∧
        lookupAssoc (compareAndCreateActionMap nd pages cfs).renamedPages p.id = some r) ∧
    (f.isBundle = false →
        (getBundlePathDefault p.title p.id (contentTypeFor p) p.targetFolder).isBundle = true →
        p ∈ (compareAndCreateActionMap nd pages cfs).toUpdate) := by
  constructor
  · intro hib r hbrc
    have hstruct : pageHasStructuralChange p f = true := by
      simp [pageHasStructuralChange, hib, hbrc]
    have hcl : classifyPage nd cfs p = .update := by
      unfold classifyPage
      rw [hfind]
      simp [hstruct]
    refine ⟨(mem_toUpdate_iff nd pages cfs p).mpr ⟨hp, hsp, hcl⟩, ?_⟩
    simp only [compareAndCreateActionMap]
    exact foldl_renamed_lookup_self nd cfs pages p f r hdist hp hsp hfind hib hbrc _
  · intro hib hbp
    have hstruct : pageHasStructuralChange p f = true := by
      simp [pageHasStructuralChange, hib, hbp]
    have hcl : classifyPage nd cfs p = .update := by
      unfold classifyPage
      rw [hfind]
      simp [hstruct]
    exact (mem_toUpdate_iff nd pages cfs p).mpr ⟨hp, hsp, hcl⟩

/-- Witness for the amended C2: a bundle whose directory name no longer
matches the slug of the (renamed) title is updated and its rename is
recorded, with identical timestamps on both sides. -/
theorem rename_detection_updates_witness :
    (⟨"id1", "New Name", "index.md", "2024-01-01T00:00:00.000Z", "posts",
        .database, "db", true⟩ : PageMapItem) ∈
      (compareAndCreateActionMap (fun s => s)
        [⟨"id1", "New Name", "index.md", "2024-01-01T00:00:00.000Z", "posts",
          .database, "db", true⟩]
        [⟨"id1", "content/posts/old-name/index.md", "index.md",
          "2024-01-01T00:00:00.000Z", "posts", true, none, none⟩]).toUpdate ∧
    lookupAssoc (compareAndCreateActionMap (fun s => s)
        [⟨"id1", "New Name", "index.md", "2024-01-01T00:00:00.000Z", "posts",
          .database, "db", true⟩]
        [⟨"id1", "content/posts/old-name/index.md", "index.md",
          "2024-01-01T00:00:00.000Z", "posts", true, none, none⟩]).renamedPages
      "id1" = some ⟨"old-name", "new-name"⟩ :=
  (rename_detection_updates (fun s => s)
      [⟨"id1", "New Name", "index.md", "2024-01-01T00:00:00.000Z", "posts",
        .database, "db", true⟩]
      [⟨"id1", "content/posts/old-name/index.md", "index.md",
        "2024-01-01T00:00:00.000Z", "posts", true, none, none⟩]
      ⟨"id1", "New Name", "index.md", "2024-01-01T00:00:00.000Z", "posts",
        .database, "db", true⟩
      ⟨"id1", "content/posts/old-name/index.md", "index.md",
        "2024-01-01T00:00:00.000Z", "posts", true, none, none⟩
      (by decide) (by decide) rfl rfl).1
    rfl ⟨"old-name", "new-name"⟩ (by decide)

/-! ## Claim C9: deletion of stale entries and bundle directories -/

/-- C9 counterexample: a `_index.md` entry is classified as a bundle index
by `buildContentFileMap`, yet the delete step removes only the file
itself, not the containing directory — the directory removal happens only
for files named exactly `index.md`. -/
theorem underscoreIndex_removed_as_file :
    isBundleFileName (pathBasename "content/docs/_index.md") = true ∧
    deleteActionFor ⟨"id9", "content/docs/_index.md", "_index.md", "t0", "content/docs",
        true, none, none⟩ = DeleteAction.removeFile "content/docs/_index.md" := by
  constructor
  · decide
  · decide

/-- C9 amended: every content file whose id matches no processed source
record is placed in `toDelete`; the delete step removes the whole
containing directory for entries named exactly `index.md`, and only the
file itself for every other entry — including `_index.md` entries, which
`buildContentFileMap` classifies as bundle indexes (see the
counterexample). -/
theorem toDelete_and_deleteAction (nd : String → String)
    (pages : List PageMapItem) (cfs : List ContentFileMapItem) :
    (∀ f ∈ cfs, (∀ p ∈ pages, p.shouldProcess = true → p.id ≠ f.id) →
        f ∈ (compareAndCreateActionMap nd pages cfs).toDelete) ∧
    (∀ f : ContentFileMapItem, pathBasename f.filepath = "index.md" →
        deleteActionFor f = .removeDir (pathDirname f.filepath)) ∧
    (∀ f : ContentFileMapItem, ¬(pathBasename f.filepath = "index.md") →
        deleteActionFor f = .removeFile f.filepath) := by
  refine ⟨fun f hf hnp => (mem_toDelete_iff nd pages cfs f).mpr ⟨hf, hnp⟩, ?_, ?_⟩
  · intro f h
    simp [deleteActionFor, h]
  · intro f h
    simp [deleteActionFor, h]

/-! ## Claim C10: filename identity round-trip -/

theorem isLaxHexDigit_of_lower {c : Char} (h : isLowerHexDigit c = true) :
    isLaxHexDigit c = true := by
  simp only [isLowerHexDigit, Bool.or_eq_true] at h
  rcases h with h | h <;> simp [isLaxHexDigit, h]

theorem extract_append (pre sid : List Char)
    (hlen : sid.length = 32) (hhex : ∀ c ∈ sid, isLaxHexDigit c = true) :
    extractNotionIdFromFilename (String.mk (pre ++ '-' :: (sid ++ ['.', 'm', 'd']))) =
      some (formatDashedId sid) := by
  have hrev : (pre ++ '-' :: (sid ++ ['.', 'm', 'd'])).reverse
      = (['d', 'm', '.'] ++ sid.reverse) ++ '-' :: pre.reverse := by
    simp
  have hlenrev : sid.reverse.length = 32 := by simpa using hlen
  have hlen35 : ((['d', 'm', '.'] : List Char) ++ sid.reverse).length = 35 := by
    simp [hlenrev]
  simp only [extractNotionIdFromFilename]
  rw [hrev]
  rw [List.drop_left' hlen35]
  rw [List.append_assoc]
  rw [List.take_left' (by rfl : (['d', 'm', '.'] : List Char).length = 3)]
  rw [List.drop_left' (by rfl : (['d', 'm', '.'] : List Char).length = 3)]
  rw [List.take_left' hlenrev]
  have hall : sid.reverse.all isLaxHexDigit = true :=
    List.all_eq_true.mpr (fun c hc => hhex c (List.mem_reverse.mp hc))
  simp [hlenrev, hall]

/-- C10: for a page id whose dash-stripped form is 32 lowercase hex
characters, the id embedded by `getFileName` is recovered by
`extractNotionIdFromFilename` in the canonical 8-4-4-4-12 dashed
grouping, for every title. -/
theorem getFileName_extract_roundtrip (title page_id : String)
    (hlen : (stripDashes page_id).data.length = 32)
    (hhex : ∀ c ∈ (stripDashes page_id).data, isLowerHexDigit c = true) :
    extractNotionIdFromFilename (getFileName title page_id) =
      some (formatDashedId (stripDashes page_id).data) := by
  have hshape : getFileName title page_id =
      String.mk ((slugify title).data ++ '-' :: ((stripDashes page_id).data ++ ['.', 'm', 'd'])) := by
    apply stringDataInj
    simp [getFileName, String.data_append]
  rw [hshape]
  exact extract_append _ _ hlen (fun c hc => isLaxHexDigit_of_lower (hhex c hc))

/-- Witness for C10 at a concrete title and id: the embedded id is
recovered in canonical dashed form. -/
theorem getFileName_extract_roundtrip_witness :
    (stripDashes "12345678-9abc-def0-1234-56789abcdef0").data.length = 32 ∧
    extractNotionIdFromFilename
        (getFileName "Hello World" "12345678-9abc-def0-1234-56789abcdef0") =
      some "12345678-9abc-def0-1234-56789abcdef0" :=
  ⟨by decide,
   (getFileName_extract_roundtrip "Hello World" "12345678-9abc-def0-1234-56789abcdef0"
      (by decide) (by decide)).trans (by decide)⟩

/-- Witness for the amended C9: a stale bundle entry is selected for
deletion and its delete action removes the whole bundle directory. -/
theorem toDelete_and_deleteAction_witness :
    (⟨"c3", "content/posts/gone/index.md", "index.md", "t0", "posts", true,
        none, none⟩ : ContentFileMapItem) ∈
      (compareAndCreateActionMap (fun s => s) []
        [⟨"c3", "content/posts/gone/index.md", "index.md", "t0", "posts", true,
          none, none⟩]).toDelete ∧
    deleteActionFor (⟨"c3", "content/posts/gone/index.md", "index.md", "t0", "posts",
        true, none, none⟩ : ContentFileMapItem) =
      DeleteAction.removeDir "content/posts/gone" :=
  ⟨(toDelete_and_deleteAction (fun s => s) [] _).1 _ (by decide) (by decide),
   (toDelete_and_deleteAction (fun s => s) [] []).2.1 _ (by decide)⟩

/-! ## Helper lemmas for the asset-tracking claim -/

theorem isPrefixOf_append_self (l t : List Char) : l.isPrefixOf (l ++ t) = true := by
  induction l with
  | nil => simp [List.isPrefixOf]
  | cons c cs ih => simp [List.isPrefixOf, ih]

theorem listContainsSub_of_parts (pat pre suf : List Char) :
    listContainsSub pat (pre ++ (pat ++ suf)) = true := by
  induction pre with
  | nil =>
    cases hp : pat with
    | nil =>
      cases suf with
      | nil => rfl
      | cons c t => simp [listContainsSub, List.isPrefixOf]
    | cons c t =>
      simp only [listContainsSub, hp, Bool.or_eq_true]
      exact Or.inl (isPrefixOf_append_self (c :: t) suf)
  | cons c pre' ih => simp [listContainsSub, ih]

theorem strContains_of_parts (s pat : String) (pre suf : List Char)
    (h : s.data = pre ++ (pat.data ++ suf)) : strContains s pat = true := by
  unfold strContains
  rw [h]
  exact listContainsSub_of_parts pat.data pre suf

theorem jsStartsWith_of_append (s p : String) (t : List Char)
    (h : s.data = p.data ++ t) : jsStartsWith s p = true := by
  unfold jsStartsWith
  rw [h]
  exact isPrefixOf_append_self p.data t

theorem splitOnCharList_not_mem (sep : Char) (cs : List Char) (h : sep ∉ cs) :
    splitOnCharList sep cs = [cs] := by
  induction cs with
  | nil => rfl
  | cons c t ih =>
    have hc : (c == sep) = false := by
      simp only [beq_eq_false_iff_ne, ne_eq]
      intro he
      exact h (by simp [he])
    have ht : sep ∉ t := fun hm => h (by simp [hm])
    simp [splitOnCharList, hc, ih ht]

theorem splitOnCharList_append (sep : Char) (xs ys : List Char) (h : sep ∉ xs) :
    splitOnCharList sep (xs ++ sep :: ys) = xs :: splitOnCharList sep ys := by
  induction xs with
  | nil => simp [splitOnCharList]
  | cons c t ih =>
    have hc : (c == sep) = false := by
      simp only [beq_eq_false_iff_ne, ne_eq]
      intro he
      exact h (by simp [he])
    have ht : sep ∉ t := fun hm => h (by simp [hm])
    simp [splitOnCharList, hc, ih ht]

theorem pathNormStack_plain (segs : List (List Char))
    (h : ∀ s ∈ segs, s.isEmpty = false ∧ s ≠ ['.'] ∧ s ≠ ['.', '.']) :
    ∀ acc, pathNormStack acc segs = acc.reverse ++ segs := by
  induction segs with
  | nil => intro acc; simp [pathNormStack]
  | cons s rest ih =>
    intro acc
    obtain ⟨h1, h2, h3⟩ := h s (by simp)
    have h2' : (s == ['.']) = false := by simpa using h2
    have h3' : (s == ['.', '.']) = false := by simpa using h3
    simp only [pathNormStack, h1, h2', h3', Bool.or_self, Bool.false_eq_true, if_false]
    rw [ih (fun s' hs' => h s' (by simp [hs'])) (s :: acc)]
    simp

theorem stringMkData (s : String) : String.mk s.data = s := by
  cases s
  rfl

theorem jsInsertBy_mem {α : Type} (c : α → α → Int) (x y : α) (l : List α)
    (h : y ∈ jsInsertBy c x l) : y = x ∨ y ∈ l := by
  induction l with
  | nil => simpa [jsInsertBy] using h
  | cons z zs ih =>
    unfold jsInsertBy at h
    by_cases hc : c x z < 0
    · rw [if_pos hc] at h
      rcases List.mem_cons.mp h with h1 | h2
      · exact Or.inl h1
      · exact Or.inr h2
    · rw [if_neg hc] at h
      rcases List.mem_cons.mp h with h1 | h2
      · exact Or.inr (by simp [h1])
      · rcases ih h2 with h3 | h4
        · exact Or.inl h3
        · exact Or.inr (by simp [h4])

theorem jsSortBy_mem {α : Type} (c : α → α → Int) (y : α) (l : List α)
    (h : y ∈ jsSortBy c l) : y ∈ l := by
  induction l with
  | nil => simp [jsSortBy] at h
  | cons x xs ih =>
    unfold jsSortBy at h
    rcases jsInsertBy_mem c x y _ h with h1 | h2
    · simp [h1]
    · simp [ih h2]

theorem jsInsertBy_length {α : Type} (c : α → α → Int) (x : α) (l : List α) :
    (jsInsertBy c x l).length = l.length + 1 := by
  induction l with
  | nil => rfl
  | cons z zs ih =>
    unfold jsInsertBy
    by_cases hc : c x z < 0
    · simp [hc]
    · simp [hc, ih]

theorem jsSortBy_length {α : Type} (c : α → α → Int) (l : List α) :
    (jsSortBy c l).length = l.length := by
  induction l with
  | nil => rfl
  | cons x xs ih => simp [jsSortBy, jsInsertBy_length, ih]

theorem natDigitChar_isDigit (d : Nat) : (natDigitChar d).isDigit = true := by
  unfold natDigitChar
  repeat' split
  all_goals decide

theorem natDecimalRev_digits (n : Nat) : ∀ c ∈ natDecimalRev n, c.isDigit = true := by
  induction n using Nat.strong_induction_on with
  | _ n ih =>
    rw [natDecimalRev]
    split
    · intro c hc
      simp only [List.mem_singleton] at hc
      rw [hc]
      exact natDigitChar_isDigit n
    · intro c hc
      rcases List.mem_cons.mp hc with h1 | h2
      · rw [h1]
        exact natDigitChar_isDigit (n % 10)
      · exact ih (n / 10) (Nat.div_lt_self (by omega) (by omega)) c h2

theorem extTryLen_alnum (cs : List Char) (len : Nat) (e : String)
    (h : extTryLen cs len = some e) : ∀ c ∈ e.data, isAsciiAlnum c = true := by
  simp only [extTryLen] at h
  by_cases hcond : ((cs.take len).length == len && (cs.take len).all isAsciiAlnum) = true
  · rw [if_pos hcond] at h
    have hall : (cs.take len).all isAsciiAlnum = true := by
      simp only [Bool.and_eq_true] at hcond
      exact hcond.2
    have he : e = String.mk (cs.take len) := by
      split at h
      · injection h with h'
        exact h'.symm
      · split at h
        · injection h with h'
          exact h'.symm
        · cases h
    rw [he]
    exact fun c hc => List.all_eq_true.mp hall c hc
  · rw [if_neg hcond] at h
    cases h

theorem extMatchHere_alnum (cs : List Char) (e : String)
    (h : extMatchHere cs = some e) : ∀ c ∈ e.data, isAsciiAlnum c = true := by
  rcases cs with _ | ⟨c, rest⟩
  · cases h
  · simp only [extMatchHere] at h
    by_cases hc : (c == '.') = true
    · rw [if_pos hc] at h
      rcases h5 : extTryLen rest 5 with _ | e5
      · rcases h4 : extTryLen rest 4 with _ | e4
        · rcases h3 : extTryLen rest 3 with _ | e3
          · rcases h2 : extTryLen rest 2 with _ | e2
            · rw [h5, h4, h3, h2] at h
              simp only [Option.orElse] at h
              exact extTryLen_alnum rest 1 e h
            · rw [h5, h4, h3, h2] at h
              simp only [Option.orElse] at h
              injection h with h'
              exact h' ▸ extTryLen_alnum rest 2 e2 h2
          · rw [h5, h4, h3] at h
            simp only [Option.orElse] at h
            injection h with h'
            exact h' ▸ extTryLen_alnum rest 3 e3 h3
        · rw [h5, h4] at h
          simp only [Option.orElse] at h
          injection h with h'
          exact h' ▸ extTryLen_alnum rest 4 e4 h4
      · rw [h5] at h
        simp only [Option.orElse] at h
        injection h with h'
        exact h' ▸ extTryLen_alnum rest 5 e5 h5
    · rw [if_neg hc] at h
      cases h

theorem extScan_alnum (cs : List Char) (e : String)
    (h : extScan cs = some e) : ∀ c ∈ e.data, isAsciiAlnum c = true := by
  induction cs with
  | nil => cases h
  | cons c rest ih =>
    unfold extScan at h
    rcases hm : extMatchHere (c :: rest) with _ | e'
    · rw [hm] at h
      exact ih h
    · rw [hm] at h
      injection h with h'
      exact h' ▸ extMatchHere_alnum (c :: rest) e' hm

theorem asciiLowerChar_alnum {c : Char} (h : isAsciiAlnum c = true) :
    isAsciiAlnum (asciiLowerChar c) = true := by
  unfold asciiLowerChar
  split
  all_goals first
  | decide
  | exact h

theorem isAsciiAlnum_ne_slash {c : Char} (h : isAsciiAlnum c = true) : ¬(c = '/') := by
  intro he
  rw [he] at h
  cases h

theorem isLowerHexDigit_ne_slash {c : Char} (h : isLowerHexDigit c = true) : ¬(c = '/') := by
  intro he
  rw [he] at h
  cases h

theorem isDigit_ne_slash {c : Char} (h : c.isDigit = true) : ¬(c = '/') := by
  intro he
  rw [he] at h
  cases h

theorem pathJoin_imageDir (n : String) (hn : '/' ∉ n.data)
    (h0 : n.data.isEmpty = false) (h1 : n.data ≠ ['.']) (h2 : n.data ≠ ['.', '.']) :
    pathJoin IMAGE_DIR n =
      String.mk ("static".data ++ '/' :: ("images".data ++ '/' :: n.data)) := by
  have hplain : ∀ s ∈ ["static".data, "images".data, n.data],
      s.isEmpty = false ∧ s ≠ ['.'] ∧ s ≠ ['.', '.'] := by
    intro s hs
    rcases List.mem_cons.mp hs with rfl | hs2
    · exact ⟨by decide, by decide, by decide⟩
    rcases List.mem_cons.mp hs2 with rfl | hs3
    · exact ⟨by decide, by decide, by decide⟩
    rcases List.mem_cons.mp hs3 with rfl | hs4
    · exact ⟨h0, h1, h2⟩
    · exact absurd hs4 (List.not_mem_nil s)
  unfold pathJoin IMAGE_DIR
  rw [show splitOnCharList '/' ("static/images" : String).data
      = ["static".data, "images".data] by decide]
  rw [splitOnCharList_not_mem '/' n.data hn]
  rw [show (["static".data, "images".data] ++ [n.data])
      = ["static".data, "images".data, n.data] from rfl]
  rw [pathNormStack_plain _ hplain []]
  simp only [List.reverse_nil, List.nil_append]
  rw [show List.intercalate ['/'] ["static".data, "images".data, n.data]
      = "static".data ++ '/' :: ("images".data ++ '/' :: n.data) by
    simp [List.intercalate, List.intersperse]]
  have hLne : ("static".data ++ '/' :: ("images".data ++ '/' :: n.data)) ≠ [] := by simp
  simp [List.isEmpty_eq_false.mpr hLne]

theorem pathBasename_imageDirJoin (n : String) (hn : '/' ∉ n.data)
    (h0 : n.data.isEmpty = false) (h1 : n.data ≠ ['.']) (h2 : n.data ≠ ['.', '.']) :
    pathBasename (pathJoin IMAGE_DIR n) = n := by
  rw [pathJoin_imageDir n hn h0 h1 h2]
  unfold pathBasename
  rw [show (String.mk ("static".data ++ '/' :: ("images".data ++ '/' :: n.data))).data
      = "static".data ++ '/' :: ("images".data ++ '/' :: n.data) from rfl]
  rw [splitOnCharList_append '/' "static".data _ (by decide)]
  rw [splitOnCharList_append '/' "images".data _ (by decide)]
  rw [splitOnCharList_not_mem '/' n.data hn]
  simp [h0, stringMkData]

/-! ## Claim C6: assets are fetched at most once -/

/-- C6: asset at-most-once.  When `shouldFetchImage` reports that an asset
must be fetched, and the download then places the file (under the filename
`generateImageFilename` produces) in the image directory while `trackImage`
upserts its tracking record, a second `shouldFetchImage` for the same URL
and owner returns `false`, and the tracking record maps the asset's content
identity to the recorded local path.  The two hex hypotheses record that
md5 digests consist of lowercase hex digits and that page ids consist of
lowercase hex digits and dashes. -/
theorem shouldFetch_recordFetch_then_false
    (md5 : String → String) (parseUrl : String → Option UrlParts)
    (files : List String) (trackingDb : List (String × ImageTrackingInfo))
    (cwd url pageId : String) (now : Nat) (hashFile : String → String)
    (nowIso : String)
    (hcid : ∀ c ∈ (generateContentId md5 parseUrl url).data, isLowerHexDigit c = true)
    (hpid : ∀ c ∈ (stripDashes pageId).data, isLowerHexDigit c = true)
    (_hfirst : shouldFetchImage md5 parseUrl files cwd url pageId = true) :
    shouldFetchImage md5 parseUrl
        (generateImageFilename md5 parseUrl now url pageId :: files) cwd url pageId = false ∧
    ∃ info,
      lookupAssoc
          (trackImage hashFile nowIso
            (generateImageFilename md5 parseUrl now url pageId :: files) cwd trackingDb
            (generateContentId md5 parseUrl url)
            ("/" ++ IMAGE_DIR ++ "/" ++ generateImageFilename md5 parseUrl now url pageId))
          (generateContentId md5 parseUrl url) = some info ∧
      info.localPath =
        "/" ++ IMAGE_DIR ++ "/" ++ generateImageFilename md5 parseUrl now url pageId := by
  have hdash : ("-" : String).data = ['-'] := rfl
  have hdot : ("." : String).data = ['.'] := rfl
  set fname := generateImageFilename md5 parseUrl now url pageId with hfdef
  set cid0 := generateContentId md5 parseUrl url with hciddef
  set pp := strTake (stripDashes pageId) 8 with hppdef
  set cid8 := strTake cid0 8 with hcid8def
  set ts := jsNatToString now with htsdef
  set ext := imageExtensionOf parseUrl url with hextdef
  have hfdata : fname.data =
      "notion-".data ++ (pp.data ++ ('-' :: (cid8.data ++ ('-' :: (ts.data ++ ('.' :: ext.data)))))) := by
    rw [hfdef, hppdef, hcid8def, htsdef, hextdef, hciddef]
    simp [generateImageFilename, String.data_append, List.append_assoc, hdash, hdot]
  have hcons : fname.data =
      'n' :: ("otion-".data ++ (pp.data ++ ('-' :: (cid8.data ++ ('-' :: (ts.data ++ ('.' :: ext.data))))))) := by
    rw [hfdata]
    rfl
  have h0 : fname.data.isEmpty = false := by rw [hcons]; rfl
  have h1 : fname.data ≠ ['.'] := by
    rw [hcons]
    intro heq
    injection heq with ha hb
    exact absurd ha (by decide)
  have h2 : fname.data ≠ ['.', '.'] := by
    rw [hcons]
    intro heq
    injection heq with ha hb
    exact absurd ha (by decide)
  have hext : ∀ c ∈ ext.data, isAsciiAlnum c = true := by
    rw [hextdef]
    unfold imageExtensionOf
    rcases hpu : parseUrl url with _ | u
    · simp only [hpu]
      decide
    · simp only [hpu]
      rcases hscan : extScan u.pathname.data with _ | e
      · simp only [hscan]
        decide
      · simp only [hscan]
        intro c hc
        have hmap : (jsToLowerCase e).data = e.data.map asciiLowerChar := rfl
        rw [hmap] at hc
        obtain ⟨c', hc', rfl⟩ := List.mem_map.mp hc
        exact asciiLowerChar_alnum (extScan_alnum _ _ hscan c' hc')
  have hts : ∀ c ∈ ts.data, c.isDigit = true := by
    rw [htsdef]
    intro c hc
    have hmem : c ∈ natDecimalRev now := by
      have hrev : (jsNatToString now).data = (natDecimalRev now).reverse := rfl
      rw [hrev] at hc
      exact List.mem_reverse.mp hc
    exact natDecimalRev_digits now c hmem
  have hppmem : ∀ c ∈ pp.data, isLowerHexDigit c = true := by
    rw [hppdef]
    intro c hc
    exact hpid c (List.mem_of_mem_take hc)
  have hcid8mem : ∀ c ∈ cid8.data, isLowerHexDigit c = true := by
    rw [hcid8def, hciddef]
    intro c hc
    exact hcid c (List.mem_of_mem_take hc)
  have hnoslash : '/' ∉ fname.data := by
    rw [hfdata]
    intro hmem
    simp only [List.mem_append, List.mem_cons] at hmem
    rcases hmem with h | h
    · exact absurd h (by decide)
    rcases h with h | h
    · exact absurd (hppmem '/' h) (by decide)
    rcases h with h | h
    · exact absurd h (by decide)
    rcases h with h | h
    · exact absurd (hcid8mem '/' h) (by decide)
    rcases h with h | h
    · exact absurd h (by decide)
    rcases h with h | h
    · exact absurd (hts '/' h) (by decide)
    rcases h with h | h
    · exact absurd h (by decide)
    · exact absurd (hext '/' h) (by decide)
  have hstarts : jsStartsWith fname ("notion-" ++ pp ++ "-") = true := by
    apply jsStartsWith_of_append _ _ (cid8.data ++ ('-' :: (ts.data ++ ('.' :: ext.data))))
    rw [hfdata]
    simp [String.data_append, List.append_assoc, hdash]
  have hnotdot : jsStartsWith fname "." = false := by
    unfold jsStartsWith
    rw [hcons, hdot]
    simp [List.isPrefixOf]
  have hmem1 : pathJoin IMAGE_DIR fname ∈ findExistingImagesForPage (fname :: files) pageId := by
    unfold findExistingImagesForPage
    refine List.mem_map.mpr ⟨fname, List.mem_filter.mpr ⟨List.mem_cons_self _ _, ?_⟩, rfl⟩
    rw [← hppdef, hstarts, hnotdot]
    rfl
  have hbase : pathBasename (pathJoin IMAGE_DIR fname) = fname :=
    pathBasename_imageDirJoin fname hnoslash h0 h1 h2
  have hmem2 : pathJoin IMAGE_DIR fname ∈
      (findExistingImagesForPage (fname :: files) pageId).filter
        (fun p => strContains (pathBasename p) ("-" ++ strTake cid0 8 ++ "-")) := by
    refine List.mem_filter.mpr ⟨hmem1, ?_⟩
    rw [hbase, ← hcid8def]
    refine strContains_of_parts fname _ ("notion-".data ++ pp.data)
      (ts.data ++ ('.' :: ext.data)) ?_
    rw [hfdata]
    simp [String.data_append, List.append_assoc, hdash]
  obtain ⟨x, hx, hxmem⟩ : ∃ x,
      findLatestImageByContentId (fname :: files) cid0 pageId = some x ∧
      x ∈ findExistingImagesForPage (fname :: files) pageId := by
    unfold findLatestImageByContentId
    have hne : ((findExistingImagesForPage (fname :: files) pageId).filter
        (fun p => strContains (pathBasename p) ("-" ++ strTake cid0 8 ++ "-"))) ≠ [] := by
      intro hnil
      rw [hnil] at hmem2
      exact absurd hmem2 (List.not_mem_nil _)
    simp only [List.isEmpty_eq_false.mpr hne, Bool.false_eq_true, if_false]
    rcases hs : jsSortBy imageTimestampCmp
        ((findExistingImagesForPage (fname :: files) pageId).filter
          (fun p => strContains (pathBasename p) ("-" ++ strTake cid0 8 ++ "-"))) with _ | ⟨x, xs⟩
    · exfalso
      have hlen := jsSortBy_length imageTimestampCmp
        ((findExistingImagesForPage (fname :: files) pageId).filter
          (fun p => strContains (pathBasename p) ("-" ++ strTake cid0 8 ++ "-")))
      rw [hs] at hlen
      exact hne (List.length_eq_zero.mp hlen.symm)
    · refine ⟨x, rfl, ?_⟩
      have hxs : x ∈ jsSortBy imageTimestampCmp
          ((findExistingImagesForPage (fname :: files) pageId).filter
            (fun p => strContains (pathBasename p) ("-" ++ strTake cid0 8 ++ "-"))) := by
        rw [hs]
        simp
      exact (List.mem_filter.mp (jsSortBy_mem _ _ _ hxs)).1
  have hxmap : x ∈ ((fname :: files).filter
      (fun f => jsStartsWith f ("notion-" ++ strTake (stripDashes pageId) 8 ++ "-") &&
        !jsStartsWith f ".")).map (fun f => pathJoin IMAGE_DIR f) := by
    unfold findExistingImagesForPage at hxmem
    exact hxmem
  obtain ⟨nf, hnfmem, hxeq⟩ := List.mem_map.mp hxmap
  have hnffiles : nf ∈ fname :: files := (List.mem_filter.mp hnfmem).1
  have hex : fsExistsIn (fname :: files) cwd (pathJoin cwd x) = true := by
    unfold fsExistsIn
    refine List.any_eq_true.mpr ⟨nf, hnffiles, ?_⟩
    rw [← hxeq]
    simp
  constructor
  · unfold shouldFetchImage
    simp only [← hciddef]
    rw [hx]
    simp [hex]
  · refine ⟨⟨"/" ++ IMAGE_DIR ++ "/" ++ fname,
      (if fsExistsIn (fname :: files) cwd (pathJoin cwd ("/" ++ IMAGE_DIR ++ "/" ++ fname))
        then some (hashFile (pathJoin cwd ("/" ++ IMAGE_DIR ++ "/" ++ fname)))
        else none), nowIso⟩, ?_, rfl⟩
    unfold trackImage
    exact lookupAssoc_assocSet_self _ _ _

/-- Witness for C6: on an empty image directory the first check says
fetch; once the generated file is present the second check says no. -/
theorem shouldFetch_recordFetch_then_false_witness :
    shouldFetchImage (fun _ => "0123456789abcdef0123456789abcdef") (fun _ => none)
        (generateImageFilename (fun _ => "0123456789abcdef0123456789abcdef") (fun _ => none)
          1700000000 "https://example.com/img" "abcdef01-2345-6789-abcd-ef0123456789" :: [])
        "." "https://example.com/img" "abcdef01-2345-6789-abcd-ef0123456789" = false :=
  (shouldFetch_recordFetch_then_false (fun _ => "0123456789abcdef0123456789abcdef")
    (fun _ => none) [] [] "." "https://example.com/img"
    "abcdef01-2345-6789-abcd-ef0123456789" 1700000000 (fun _ => "h")
    "2024-01-01T00:00:00.000Z" (by decide) (by decide) (by decide)).1

/-- With the default configuration `getBundlePath` never fails: the
special-page table only references the content type `"page"`, which the
`contentTypes` table defines.  This discharges the fallback branch of
`getBundlePathDefault`. -/
theorem getBundlePath_default_isSome (title pageId contentType targetFolder : String) :
    (getBundlePath ⟨title, pageId, contentType, targetFolder,
      DEFAULT_HUGO_BUNDLE_CONFIG⟩).isSome = true := by
  unfold getBundlePath
  dsimp only
  rcases hf : List.find?
      (fun kv => strContains (jsRemoveWs (jsToLowerCase title)) kv.1)
      DEFAULT_HUGO_BUNDLE_CONFIG.specialPages with _ | kv
  · rw [hf]
    rcases hct : lookupAssoc DEFAULT_HUGO_BUNDLE_CONFIG.contentTypes contentType with _ | c
    · rfl
    · rfl
  · rw [hf]
    have hkv := List.mem_of_find?_eq_some hf
    have htype : kv.2.useBundle = none ∧ kv.2.indexFile = none ∧ kv.2.type = "page" := by
      simp only [DEFAULT_HUGO_BUNDLE_CONFIG, List.mem_cons, List.not_mem_nil, or_false] at hkv
      rcases hkv with rfl | rfl | rfl | rfl | rfl <;> exact ⟨rfl, rfl, rfl⟩
    obtain ⟨hu, hi, ht⟩ := htype
    dsimp only
    rw [hu, hi, ht]
    rfl

end NotionToMd
